import Mathlib

/-!
Shallow embedding of the command-line token-stream engine in `src/cli.rs`
(`clif`).  Rust strings are modelled as `List Char`; the mutable `Cli`
struct becomes an explicit state record, and each `&mut self` method
becomes a function returning a pair of result and updated state.
Rust `panic!` sites are modelled by the distinguished error
`CliError.Panicked`.
-/

namespace Clif

/-- Character sequences stand in for Rust `String` values. -/
abbrev Chars := List Char

/-- The single-dash marker (`symbol::SWITCH` in the source). -/
def symbol_switch : Chars := ['-']

/-- The double-dash marker (`symbol::FLAG` in the source). -/
def symbol_flag : Chars := ['-', '-']

/-- Token over the positional slot it originated from (enum `Token`). -/
inductive Token where
  | UnattachedArgument (i : Nat) (s : Chars)
  | AttachedArgument (i : Nat) (s : Chars)
  | Flag (i : Nat)
  | Switch (i : Nat) (c : Char)
  | EmptySwitch (i : Nat)
  | Ignore (i : Nat) (s : Chars)
  | Terminator (i : Nat)
deriving DecidableEq, Repr

/-- Normalized identity of an option occurrence (enum `Tag<T>`). -/
inductive Tag where
  | Switch (s : Chars)
  | Flag (s : Chars)
deriving DecidableEq, Repr

/-- The inner text of a tag (`Tag::as_ref`). -/
def Tag.inner : Tag → Chars
  | .Switch s => s
  | .Flag s => s

/-- Modelled from the spec: declared flag shape from the out-of-src `arg`
module — a name plus an optional single-character short form. -/
structure Flag where
  name : Chars
  switch : Option Char := none
deriving DecidableEq, Repr

/-- Modelled from the spec: value-bearing declared argument (`Optional`
in the out-of-src `arg` module), wrapping the flag spelling. -/
structure Optional where
  flag : Flag
deriving DecidableEq, Repr

/-- Modelled from the spec: positional declared argument, name only. -/
structure Positional where
  name : Chars
deriving DecidableEq, Repr

/-- Modelled from the spec: declared-argument descriptor (`Arg` in the
out-of-src `arg` module). -/
inductive Arg where
  | Flag (f : Flag)
  | Optional (o : Optional)
  | Positional (p : Positional)
deriving DecidableEq, Repr

/-- Modelled from the spec: the help collaborator (out-of-src `help`
module) exposes a designated help-flag descriptor (`Help::get_flag`). -/
structure Help where
  flag : Flag
deriving DecidableEq, Repr

/-- Modelled from the spec: the error kinds of section 7 (out-of-src
`errors` module), with the payloads the engine code passes to each
constructor.  `Panicked` is a modelling device standing for Rust
`panic!` at the engine's unreachable sites. -/
inductive CliError where
  | Help (h : Option Clif.Help)
  | BadType (a : Arg) (value : Chars) (msg : Chars) (h : Option Clif.Help)
  | DuplicateOptions (a : Arg) (h : Option Clif.Help)
  | UnexpectedValue (a : Arg) (value : Chars)
  | ExpectingValue (a : Arg) (h : Option Clif.Help)
  | MissingPositional (a : Arg) (h : Option Clif.Help)
  | UnexpectedArg (s : Chars) (h : Option Clif.Help)
  | UnknownSubcommand (a : Arg) (s : Chars) (h : Option Clif.Help)
  | SuggestSubcommand (s : Chars) (w : Chars)
  | SuggestArg (s : Chars) (w : Chars)
  | OutOfContextArgSuggest (s : Chars) (cmd : Chars) (h : Option Clif.Help)
  | ExceedingMaxCount (n : Nat) (got : Nat) (a : Arg)
  | Panicked (msg : String)
deriving DecidableEq, Repr

/-- Decidable equality of fallible results, used to evaluate the
engine at concrete inputs. -/
instance exceptDecEq {ε α : Type} [DecidableEq ε] [DecidableEq α] :
    DecidableEq (Except ε α) := fun a b =>
  match a, b with
  | .ok x, .ok y =>
    if h : x = y then .isTrue (congrArg Except.ok h)
    else .isFalse (fun he => h (Except.ok.inj he))
  | .error x, .error y =>
    if h : x = y then .isTrue (congrArg Except.error h)
    else .isFalse (fun he => h (Except.error.inj he))
  | .ok _, .error _ => .isFalse (fun he => Except.noConfusion he)
  | .error _, .ok _ => .isFalse (fun he => Except.noConfusion he)

/-- The suggestion oracle contract (out-of-src `seqalin` module):
given a misspelled word, a word bank and a maximum edit distance,
return the best candidate or none.  Passed in as a parameter. -/
abbrev SuggestOracle := Chars → List Chars → Nat → Option Chars

/-- The oracle that never suggests anything. -/
def no_oracle : SuggestOracle := fun _ _ _ => none

/-- The engine state (struct `Cli`).  The Rust `HashMap` occurrence
index is modelled as an insertion-ordered association list; every use
by the engine (minimum-by-first-slot, single-entry removal) is
independent of hash iteration order because registered first slots are
pairwise distinct. -/
structure Cli where
  tokens : List (Option Token)
  opt_store : List (Tag × List Nat)
  known_args : List Arg
  help : Option Help
  asking_for_help : Bool
  threshold : Nat
deriving DecidableEq, Repr

/-- Creates a minimal `Cli` struct (`Cli::new`). -/
def Cli.new : Cli :=
  { tokens := [], opt_store := [], known_args := [], help := none,
    asking_for_help := false, threshold := 0 }

/-- Appends slot `idx` to the entry for `tg`, creating the entry if
absent (`store.entry(tag).or_insert(Vec::new()).push(idx)`). -/
def store_push (s : List (Tag × List Nat)) (tg : Tag) (idx : Nat) :
    List (Tag × List Nat) :=
  match s with
  | [] => [(tg, [idx])]
  | (k, v) :: rest =>
    if k = tg then (k, v ++ [idx]) :: rest
    else (k, v) :: store_push rest tg idx

/-- Association-list lookup (`HashMap` get). -/
def store_get (s : List (Tag × List Nat)) (tg : Tag) : Option (List Nat) :=
  match s with
  | [] => none
  | (k, v) :: rest => if k = tg then some v else store_get rest tg

/-- Association-list removal returning the removed value
(`HashMap::remove`). -/
def store_remove (s : List (Tag × List Nat)) (tg : Tag) :
    Option (List Nat) × List (Tag × List Nat) :=
  match s with
  | [] => (none, [])
  | (k, v) :: rest =>
    if k = tg then (some v, rest)
    else
      let r := store_remove rest tg
      (r.1, (k, v) :: r.2)

/-- Splits a word once at the first `=` (`str::split_once('=')`). -/
def split_once_eq_aux (acc : Chars) : Chars → Option (Chars × Chars)
  | [] => none
  | ch :: rest =>
    if ch = '=' then some (acc, rest) else split_once_eq_aux (acc ++ [ch]) rest

/-- Splits a word once at the first `=`, or none when `=` is absent. -/
def split_once_eq (s : Chars) : Option (Chars × Chars) :=
  split_once_eq_aux [] s

/-- Lexer working state: the token slots built so far, the occurrence
index built so far, and whether the terminator has been seen. -/
structure LexState where
  tokens : List (Option Token)
  store : List (Tag × List Nat)
  terminated : Bool
deriving DecidableEq, Repr

/-- The fresh lexer state. -/
def lex_init : LexState := { tokens := [], store := [], terminated := false }

/-- Emits the remaining characters of a short-form bundle as individual
`Switch` tokens (the inner `while let` loop of `tokenize`). -/
def lex_switch_rest (st : LexState) (i : Nat) : List Char → LexState
  | [] => st
  | ch :: rest =>
    lex_switch_rest
      { st with
        store := store_push st.store (Tag.Switch [ch]) st.tokens.length,
        tokens := st.tokens ++ [some (Token.Switch i ch)] } i rest

/-- Lexes the option spelling left of any `=` split: the long-form,
terminator, and short-form bundle cases of `tokenize`. -/
def lex_core (st : LexState) (i : Nat) (argp : Chars) : LexState :=
  if symbol_flag.isPrefixOf argp then
    let name := argp.drop 2
    if name = [] then
      { st with tokens := st.tokens ++ [some (Token.Terminator i)], terminated := true }
    else
      { st with
        store := store_push st.store (Tag.Flag name) st.tokens.length,
        tokens := st.tokens ++ [some (Token.Flag i)] }
  else
    match argp.drop 1 with
    | [] =>
      { st with
        store := store_push st.store (Tag.Switch []) st.tokens.length,
        tokens := st.tokens ++ [some (Token.EmptySwitch i)] }
    | cch :: rest =>
      lex_switch_rest
        { st with
          store := store_push st.store (Tag.Switch [cch]) st.tokens.length,
          tokens := st.tokens ++ [some (Token.Switch i cch)] } i rest

/-- Emits the value staged by an `=` split, if any, directly after the
option tokens just emitted. -/
def lex_attach (st1 : LexState) (i : Nat) : Option Chars → LexState
  | some v => { st1 with tokens := st1.tokens ++ [some (Token.AttachedArgument i v)] }
  | none => st1

/-- Lexes one raw argument at enumeration index `i` (one iteration of
the `while let` loop of `Cli::tokenize`). -/
def lex_arg (st : LexState) (i : Nat) (arg : Chars) : LexState :=
  if st.terminated then
    { st with tokens := st.tokens ++ [some (Token.Ignore i arg)] }
  else if symbol_switch.isPrefixOf arg then
    let sp := split_once_eq arg
    lex_attach
      (lex_core st i (match sp with | some (o, _) => o | none => arg)) i
      (match sp with | some (_, v) => some v | none => none)
  else
    { st with tokens := st.tokens ++ [some (Token.UnattachedArgument i arg)] }

/-- Lexes the enumerated argument list left to right. -/
def lex_all (st : LexState) (i : Nat) : List Chars → LexState
  | [] => st
  | a :: rest => lex_all (lex_arg st i a) (i + 1) rest

/-- Builds the `Cli` struct by lexical analysis over the raw arguments,
skipping the program name (`Cli::tokenize`). -/
def Cli.tokenize (c : Cli) (args : List Chars) : Cli :=
  let st := lex_all lex_init 0 (args.drop 1)
  { c with tokens := st.tokens, opt_store := st.store }

/-- Sets the maximum edit-distance threshold (`Cli::threshold`). -/
def Cli.set_threshold (c : Cli) (cost : Nat) : Cli :=
  { c with threshold := cost }

/-- Checks if help is enabled (`Cli::is_help_enabled`). -/
def Cli.is_help_enabled (c : Cli) : Bool := c.help.isSome

/-- Checks if help has been raised, returning the distinguished help
error when so (`Cli::prioritize_help`). -/
def Cli.prioritize_help (c : Cli) : Except CliError Unit :=
  if c.asking_for_help = true ∧ c.is_help_enabled = true then
    .error (.Help c.help)
  else
    .ok ()

/-- Removes and returns all slots where the long-form tag `tag` occurs
(`Cli::take_flag_locs`; absent tag yields the empty list). -/
def Cli.take_flag_locs (c : Cli) (tag : Chars) : List Nat × Cli :=
  let r := store_remove c.opt_store (Tag.Flag tag)
  (r.1.getD [], { c with opt_store := r.2 })

/-- Removes and returns all slots where the switch character `ch`
occurs (`Cli::take_switch_locs`). -/
def Cli.take_switch_locs (c : Cli) (ch : Char) : List Nat × Cli :=
  let r := store_remove c.opt_store (Tag.Switch [ch])
  (r.1.getD [], { c with opt_store := r.2 })

/-- Empties the slot at each location, inspecting the next slot for a
value; unattached values are claimed only when `with_uarg` is true
(`Cli::pull_flag`).  The source unwraps `get_mut` at each location;
locations always come from the occurrence index and are in bounds. -/
def pull_step (t1 : List (Option Token)) (loc : Nat) (with_uarg : Bool) :
    Option Chars × List (Option Token) :=
  match t1.get? (loc + 1) with
  | some (some (Token.AttachedArgument _ s)) => (some s, t1.set (loc + 1) none)
  | some (some (Token.UnattachedArgument _ s)) =>
    if with_uarg then (some s, t1.set (loc + 1) none) else (none, t1)
  | _ => (none, t1)

def pull_flag_toks (toks : List (Option Token)) (with_uarg : Bool) :
    List Nat → List (Option Chars) × List (Option Token)
  | [] => ([], toks)
  | loc :: rest =>
    let step := pull_step (toks.set loc none) loc with_uarg
    let r := pull_flag_toks step.2 with_uarg rest
    (step.1 :: r.1, r.2)

/-- State-passing wrapper for `pull_flag` on the engine. -/
def Cli.pull_flag (c : Cli) (locations : List Nat) (with_uarg : Bool) :
    List (Option Chars) × Cli :=
  let r := pull_flag_toks c.tokens with_uarg locations
  (r.1, { c with tokens := r.2 })

/-- Pulls the next `UnattachedArgument` from the stream; a
`Terminator` hit returns none without consuming it (`Cli::next_uarg`). -/
def next_uarg_toks : List (Option Token) →
    Option Chars × List (Option Token)
  | [] => (none, [])
  | some (Token.UnattachedArgument _ s) :: rest =>
    (some s, none :: rest)
  | some (Token.Terminator i) :: rest => (none, some (Token.Terminator i) :: rest)
  | t :: rest =>
    let r := next_uarg_toks rest
    (r.1, t :: r.2)

/-- State-passing wrapper for `next_uarg` on the engine. -/
def Cli.next_uarg (c : Cli) : Option Chars × Cli :=
  let r := next_uarg_toks c.tokens
  (r.1, { c with tokens := r.2 })

/-- Transforms `known_args` into the list of declared flag names
(`Cli::known_args_as_flag_names`). -/
def Cli.known_args_as_flag_names (c : Cli) : List Chars :=
  c.known_args.filterMap fun a =>
    match a with
    | Arg.Flag f => some f.name
    | Arg.Optional o => some o.flag.name
    | _ => none

/-- Minimum-by-first-slot scan of the occurrence index below a
breakpoint (`Cli::find_first_flag_left`).  The source unwraps
`val.first()`; stored lists are nonempty by construction, and `headI`
mirrors the unwrapped head. -/
def ffl_step (breakpoint : Nat) (min_i : Option (Chars × Nat))
    (p : Tag × List Nat) : Option (Chars × Nat) :=
  let first := p.2.headI
  if first < breakpoint ∧ (match min_i with
    | none => true
    | some m => decide (m.2 > first)) = true then
    some (p.1.inner, first)
  else min_i

def find_ffl (store : List (Tag × List Nat)) (breakpoint : Nat) :
    Option (Chars × Nat) :=
  store.foldl (ffl_step breakpoint) none

/-- Returns the first index where a flag or switch still remains before
the breakpoint (`Cli::find_first_flag_left`). -/
def Cli.find_first_flag_left (c : Cli) (breakpoint : Nat) : Option (Chars × Nat) :=
  find_ffl c.opt_store breakpoint

/-- Verifies there are no uncaught flags behind index `i`
(`Cli::capture_bad_flag`). -/
def Cli.capture_bad_flag (c : Cli) (oracle : SuggestOracle) (i : Nat) :
    Except CliError (Option (Chars × Chars × Nat)) :=
  match c.find_first_flag_left i with
  | none => .ok none
  | some (key, val) =>
    match c.prioritize_help with
    | .error e => .error e
    | .ok _ =>
      match c.tokens.get? val with
      | none => .error (.Panicked "called Option::unwrap on a None value")
      | some none => .error (.Panicked "this token's values have been removed")
      | some (some t) =>
        match t with
        | Token.Switch _ _ => .ok (some (symbol_switch, key, val))
        | Token.EmptySwitch _ => .ok (some (symbol_switch, key, val))
        | Token.Flag _ =>
          match (if c.threshold > 0 then
                   oracle key c.known_args_as_flag_names c.threshold
                 else none) with
          | some s => .error (.SuggestArg (symbol_flag ++ key) (symbol_flag ++ s))
          | none => .ok (some (symbol_flag, key, val))
        | _ => .error (.Panicked "no other tokens are allowed in hashmap")

/-- Verifies there are no more tokens remaining in the stream
(`Cli::is_empty`, an immutable borrow). -/
def Cli.is_empty (c : Cli) (oracle : SuggestOracle) : Except CliError Unit :=
  match c.prioritize_help with
  | .error e => .error e
  | .ok _ =>
    match c.capture_bad_flag oracle c.tokens.length with
    | .error e => .error e
    | .ok (some (pfx, key, _)) => .error (.UnexpectedArg (pfx ++ key) c.help)
    | .ok none =>
      match c.tokens.find? (fun p => p.isSome) with
      | some (some (Token.UnattachedArgument _ s)) => .error (.UnexpectedArg s c.help)
      | some (some (Token.Terminator _)) => .error (.UnexpectedArg symbol_flag c.help)
      | none => .ok ()
      | some _ => .error (.Panicked "no other tokens types should be left")

/-- Session form of `is_empty`: the borrow is immutable, so the engine
state returned to the caller is unchanged. -/
def Cli.is_empty_call (c : Cli) (oracle : SuggestOracle) :
    Except CliError Unit × Cli :=
  (c.is_empty oracle, c)

/-- Queries for the number of times a flag was raised
(`Cli::check_flag_all`). -/
def Cli.check_flag_all (c : Cli) (f : Flag) : Except CliError Nat × Cli :=
  let r1 := c.take_flag_locs f.name
  let r2 : List Nat × Cli :=
    match f.switch with
    | some ch =>
      let t := r1.2.take_switch_locs ch
      (r1.1 ++ t.1, t.2)
    | none => r1
  let c1 := { r2.2 with known_args := r2.2.known_args ++ [Arg.Flag f] }
  let pv := c1.pull_flag r2.1 false
  let c2 := pv.2
  match pv.1.findSome? id with
  | some v =>
    match c2.prioritize_help with
    | .error e => (.error e, c2)
    | .ok _ =>
      (.error (.UnexpectedValue (Arg.Flag f) v),
       { c2 with known_args := c2.known_args.dropLast })
  | none =>
    let raised := pv.1.length ≠ 0
    let ask :=
      match c2.help with
      | some hp => if raised ∧ hp.flag.name = f.name then true else c2.asking_for_help
      | none => c2.asking_for_help
    (.ok pv.1.length, { c2 with asking_for_help := ask })

/-- Queries if a flag was raised once and only once (`Cli::check_flag`). -/
def Cli.check_flag (c : Cli) (f : Flag) : Except CliError Bool × Cli :=
  match c.check_flag_all f with
  | (.error e, c') => (.error e, c')
  | (.ok occ, c') =>
    if occ > 1 then
      match c'.prioritize_help with
      | .error e => (.error e, c')
      | .ok _ =>
        (.error (.DuplicateOptions (Arg.Flag f) c'.help),
         { c' with known_args := c'.known_args.dropLast })
    else
      (.ok (occ == 1), c')

/-- Queries for the number of times a flag was raised up to `n` times
(`Cli::check_flag_n`).  Note: no help-priority check on the
exceeding-count path. -/
def Cli.check_flag_n (c : Cli) (f : Flag) (n : Nat) : Except CliError Nat × Cli :=
  match c.check_flag_all f with
  | (.error e, c') => (.error e, c')
  | (.ok occ, c') =>
    if occ ≤ n then (.ok occ, c')
    else
      (.error (.ExceedingMaxCount n occ (Arg.Flag f)),
       { c' with known_args := c'.known_args.dropLast })

/-- Converts the pulled values to type `τ` left to right, reporting the
first failure (the `for val in values` loop of `check_option_all`).
The error payload is `none` for a missing value and the offending text
with the parse message otherwise. -/
def convert_values {τ : Type} (parse : Chars → Except Chars τ) :
    List (Option Chars) → Except (Option (Chars × Chars)) (List τ)
  | [] => .ok []
  | some s :: rest =>
    match parse s with
    | .ok r =>
      match convert_values parse rest with
      | .ok l => .ok (r :: l)
      | .error e => .error e
    | .error e => .error (some (s, e))
  | none :: _ => .error none

/-- Queries for all values behind an `Optional`
(`Cli::check_option_all`). -/
def Cli.check_option_all {τ : Type} (parse : Chars → Except Chars τ)
    (c : Cli) (o : Optional) : Except CliError (Option (List τ)) × Cli :=
  let r1 := c.take_flag_locs o.flag.name
  let r2 : List Nat × Cli :=
    match o.flag.switch with
    | some ch =>
      let t := r1.2.take_switch_locs ch
      (r1.1 ++ t.1, t.2)
    | none => r1
  let c1 := { r2.2 with known_args := r2.2.known_args ++ [Arg.Optional o] }
  let pv := c1.pull_flag r2.1 true
  let c2 := pv.2
  if pv.1.isEmpty then (.ok none, c2)
  else
    match convert_values parse pv.1 with
    | .ok vs => (.ok (some vs), c2)
    | .error pe =>
      match c2.prioritize_help with
      | .error e => (.error e, c2)
      | .ok _ =>
        let c3 := { c2 with known_args := c2.known_args.dropLast }
        match pe with
        | some (s, msg) => (.error (.BadType (Arg.Optional o) s msg c3.help), c3)
        | none => (.error (.ExpectingValue (Arg.Optional o) c3.help), c3)

/-- Queries for a single value of an `Optional` (`Cli::check_option`). -/
def Cli.check_option {τ : Type} (parse : Chars → Except Chars τ)
    (c : Cli) (o : Optional) : Except CliError (Option τ) × Cli :=
  let r1 := c.take_flag_locs o.flag.name
  let r2 : List Nat × Cli :=
    match o.flag.switch with
    | some ch =>
      let t := r1.2.take_switch_locs ch
      (r1.1 ++ t.1, t.2)
    | none => r1
  let c1 := { r2.2 with known_args := r2.2.known_args ++ [Arg.Optional o] }
  let pv := c1.pull_flag r2.1 true
  let c2 := pv.2
  match pv.1 with
  | [v] =>
    match v with
    | some s =>
      match parse s with
      | .ok r => (.ok (some r), c2)
      | .error e =>
        match c2.prioritize_help with
        | .error he => (.error he, c2)
        | .ok _ =>
          (.error (.BadType (Arg.Optional o) s e c2.help),
           { c2 with known_args := c2.known_args.dropLast })
    | none =>
      match c2.prioritize_help with
      | .error he => (.error he, c2)
      | .ok _ =>
        (.error (.ExpectingValue (Arg.Optional o) c2.help),
         { c2 with known_args := c2.known_args.dropLast })
  | [] => (.ok none, c2)
  | _ =>
    match c2.prioritize_help with
    | .error he => (.error he, c2)
    | .ok _ =>
      (.error (.DuplicateOptions (Arg.Optional o) c2.help),
       { c2 with known_args := c2.known_args.dropLast })

/-- Queries for up to `n` values behind an `Optional`
(`Cli::check_option_n`).  Note: no help-priority check on the
exceeding-count path. -/
def Cli.check_option_n {τ : Type} (parse : Chars → Except Chars τ)
    (c : Cli) (o : Optional) (n : Nat) :
    Except CliError (Option (List τ)) × Cli :=
  match c.check_option_all parse o with
  | (.error e, c') => (.error e, c')
  | (.ok (some r), c') =>
    if r.length ≤ n then (.ok (some r), c')
    else
      (.error (.ExceedingMaxCount n r.length (Arg.Optional o)),
       { c' with known_args := c'.known_args.dropLast })
  | (.ok none, c') => (.ok none, c')

/-- Stable insertion for sorting index entries by their first slot
(`kv.sort_by` on first occurrences; first slots are pairwise
distinct, so the strict comparison gives the same result). -/
def insert_by_first (x : Chars × List Nat) :
    List (Chars × List Nat) → List (Chars × List Nat)
  | [] => [x]
  | y :: ys =>
    if x.2.headI < y.2.headI then x :: y :: ys else y :: insert_by_first x ys

/-- Sorts index entries by their first slot. -/
def sort_by_first : List (Chars × List Nat) → List (Chars × List Nat)
  | [] => []
  | x :: xs => insert_by_first x (sort_by_first xs)

/-- The `find_map` scan of `prioritize_suggestion`: the first entry
whose first slot still holds a `Flag` token and has a near match in the
bank yields a suggestion error. -/
def scan_suggest (oracle : SuggestOracle) (toks : List (Option Token))
    (bank : List Chars) (thr : Nat) :
    List (Chars × List Nat) → Except CliError (Option CliError)
  | [] => .ok none
  | (key, locs) :: rest =>
    match locs with
    | [] => .error (.Panicked "called Option::unwrap on a None value")
    | l :: _ =>
      match toks.get? l with
      | none => .error (.Panicked "called Option::unwrap on a None value")
      | some (some (Token.Flag _)) =>
        match (if thr > 0 then oracle key bank thr else none) with
        | some word =>
          .ok (some (.SuggestArg (symbol_flag ++ key) (symbol_flag ++ word)))
        | none => scan_suggest oracle toks bank thr rest
      | some _ => scan_suggest oracle toks bank thr rest

/-- Iterates the index (sorted by first slot) to find the first
suggestion against a flag (`Cli::prioritize_suggestion`). -/
def Cli.prioritize_suggestion (c : Cli) (oracle : SuggestOracle) :
    Except CliError Unit :=
  let kv := sort_by_first (c.opt_store.map fun p => (p.1.inner, p.2))
  match scan_suggest oracle c.tokens c.known_args_as_flag_names c.threshold kv with
  | .error e => .error e
  | .ok r =>
    if c.asking_for_help = true then .ok ()
    else
      match r with
      | some e => .error e
      | none => .ok ()

/-- Serves the next positional value parsed as `τ`
(`Cli::check_positional`). -/
def Cli.check_positional {τ : Type} (c : Cli) (oracle : SuggestOracle)
    (parse : Chars → Except Chars τ) (p : Positional) :
    Except CliError (Option τ) × Cli :=
  let c1 := { c with known_args := c.known_args ++ [Arg.Positional p] }
  match c1.next_uarg with
  | (some s, c2) =>
    match parse s with
    | .ok r => (.ok (some r), c2)
    | .error e =>
      match c2.prioritize_help with
      | .error he => (.error he, c2)
      | .ok _ =>
        match c2.prioritize_suggestion oracle with
        | .error se => (.error se, c2)
        | .ok _ =>
          (.error (.BadType (Arg.Positional p) s e c2.help),
           { c2 with known_args := c2.known_args.dropLast })
  | (none, c2) => (.ok none, c2)

/-- Forces the next positional to exist (`Cli::require_positional`). -/
def Cli.require_positional {τ : Type} (c : Cli) (oracle : SuggestOracle)
    (parse : Chars → Except Chars τ) (p : Positional) :
    Except CliError τ × Cli :=
  match c.check_positional oracle parse p with
  | (.ok (some v), c') => (.ok v, c')
  | (.error e, c') => (.error e, c')
  | (.ok none, c') =>
    match c'.prioritize_help with
    | .error he => (.error he, c')
    | .ok _ =>
      match c'.is_empty oracle with
      | .error e => (.error e, c')
      | .ok _ =>
        (.error (.MissingPositional (Arg.Positional p) c'.help),
         { c' with known_args := c'.known_args.dropLast })

/-- The original argument index of the first remaining unattached
argument (the `find_map` opening `match_command`). -/
def first_uarg_index (toks : List (Option Token)) : Option Nat :=
  toks.findSome? fun f =>
    match f with
    | some (Token.UnattachedArgument i _) => some i
    | _ => none

/-- Tries to match the next unattached argument against `words`,
running the misplacement scan first (`Cli::match_command`). -/
def Cli.match_command (c : Cli) (oracle : SuggestOracle) (words : List Chars) :
    Except CliError Chars × Cli :=
  match first_uarg_index c.tokens with
  | none =>
    (.error (.Panicked "an unattached argument must exist before calling match_command"), c)
  | some i =>
    match c.next_uarg with
    | (none, c1) =>
      (.error (.Panicked "check_command must be called before this function"), c1)
    | (some s, c1) =>
      match c1.capture_bad_flag oracle i with
      | .error e => (.error e, c1)
      | .ok ooc =>
        if words.contains s then
          match ooc with
          | some (pfx, key, pos) =>
            if pos < i then
              match c1.prioritize_help with
              | .error e => (.error e, c1)
              | .ok _ =>
                (.error (.OutOfContextArgSuggest (pfx ++ key) s c1.help), c1)
            else (.ok s, c1)
          | none => (.ok s, c1)
        else
          match (if c1.threshold > 0 then oracle s words c1.threshold else none) with
          | some w => (.error (.SuggestSubcommand s w), c1)
          | none =>
            match c1.prioritize_help with
            | .error e => (.error e, c1)
            | .ok _ =>
              match c1.known_args.getLast? with
              | some a =>
                (.error (.UnknownSubcommand a s c1.help),
                 { c1 with known_args := c1.known_args.dropLast })
              | none => (.error (.Panicked "requires positional argument"), c1)

/-- The engine's own effect of `check_command`: records the positional
and reports whether an unattached argument remains anywhere (the nested
`from_cli` dispatch is the caller's sequence of further engine calls). -/
def Cli.check_command_probe (c : Cli) (p : Positional) : Bool × Cli :=
  (c.tokens.any fun t =>
    match t with
    | some (Token.UnattachedArgument _ _) => true
    | _ => false,
   { c with known_args := c.known_args ++ [Arg.Positional p] })

/-- Drains the region from the terminator on: terminators are removed,
ignored texts collected, and an attached argument behind the terminator
stops the drain with `UnexpectedValue` (the `filter_map`-`collect`
phase of `check_remainder`, which stops at the first error). -/
def drain_rem : List (Option Token) →
    Except CliError (List Chars) × List (Option Token)
  | [] => (.ok [], [])
  | some (Token.Ignore _ s) :: rest =>
    let r := drain_rem rest
    (match r.1 with
     | .ok l => .ok (s :: l)
     | .error e => .error e,
     none :: r.2)
  | some (Token.Terminator _) :: rest =>
    let r := drain_rem rest
    (r.1, none :: r.2)
  | some (Token.AttachedArgument _ s) :: rest =>
    (.error (.UnexpectedValue (Arg.Flag { name := [] }) s), none :: rest)
  | t :: rest =>
    (.error (.Panicked "no other tokens should exist beyond terminator"), t :: rest)

/-- Skips slots up to the first terminator (the `skip_while` phase of
`check_remainder`), then drains from it. -/
def skip_rem : List (Option Token) →
    Except CliError (List Chars) × List (Option Token)
  | [] => (.ok [], [])
  | some (Token.Terminator _) :: rest =>
    let r := drain_rem rest
    (r.1, none :: r.2)
  | t :: rest =>
    let r := skip_rem rest
    (r.1, t :: r.2)

/-- Removes the ignored tokens from the stream, if they exist
(`Cli::check_remainder`). -/
def Cli.check_remainder (c : Cli) : Except CliError (List Chars) × Cli :=
  let r := skip_rem c.tokens
  (r.1, { c with tokens := r.2 })

/-- Sets the help text and immediately checks for the help flag
(`Cli::help`; named `set_help` because the state field keeps the
source's `help` name). -/
def Cli.set_help (c : Cli) (h : Help) : Except CliError Unit × Cli :=
  let c1 := { c with help := some h }
  if c1.asking_for_help = false ∧ c1.is_help_enabled = true then
    match c1.check_flag h.flag with
    | (.ok b, c2) => (.ok (), { c2 with asking_for_help := b })
    | (.error e, c2) => (.error e, c2)
  else (.ok (), c1)

/-- Decimal parser standing in for `FromStr` at type `Nat`; the failing
text itself is reported as the parse-error message. -/
def parse_nat (s : Chars) : Except Chars Nat :=
  if s ≠ [] ∧ s.all (fun ch => ch.isDigit) then
    .ok (s.foldl (fun a ch => a * 10 + (ch.toNat - 48)) 0)
  else .error s

/-- A slot still holds a flag-form token (`Flag`, `Switch` or
`EmptySwitch`) — the only kinds the lexer registers in the index. -/
def flag_like : Token → Bool
  | Token.Flag _ => true
  | Token.Switch _ _ => true
  | Token.EmptySwitch _ => true
  | _ => false

/-- Number of occupied slots of a token stream. -/
def occupied (toks : List (Option Token)) : Nat :=
  toks.countP (fun t => t.isSome)

/-- The keys of the occurrence index. -/
def store_keys (s : List (Tag × List Nat)) : List Tag := s.map Prod.fst

/-- A token slot holding the stream terminator. -/
def is_term : Option Token → Bool
  | some (Token.Terminator _) => true
  | _ => false

/-- The tokens a terminated lexer emits for the remaining arguments:
one verbatim `Ignore` per argument. -/
def ignore_tokens (i : Nat) : List Chars → List (Option Token)
  | [] => []
  | a :: rest => some (Token.Ignore i a) :: ignore_tokens (i + 1) rest

/-- A slot listed in the occurrence index must still be occupied by a
flag-form token. -/
def SlotOk (toks : List (Option Token)) (l : Nat) : Prop :=
  ∃ t, toks.get? l = some (some t) ∧ flag_like t = true

/-- All slots listed anywhere in the occurrence index. -/
def store_all_locs (s : List (Tag × List Nat)) : List Nat :=
  s.flatMap Prod.snd

/-- The occurrence-index invariant: unique keys, globally distinct
slots, and every entry a nonempty strictly increasing list of slots
each still occupied by a flag-form token. -/
def StoreInv (s : List (Tag × List Nat)) (toks : List (Option Token)) : Prop :=
  (store_keys s).Nodup ∧ (store_all_locs s).Nodup ∧
  ∀ p ∈ s, p.2 ≠ [] ∧ p.2.Chain' (· < ·) ∧ ∀ l ∈ p.2, SlotOk toks l

/-- The distinguished help-requested error. -/
def is_help_err : CliError → Prop
  | .Help _ => True
  | _ => False

/-- A query outcome that is either a success or the distinguished
help-requested error. -/
def help_or_ok {α : Type} : Except CliError α → Prop
  | .ok _ => True
  | .error e => is_help_err e

/-- The spelling prefix `capture_bad_flag` reports for a stray token. -/
def tok_pfx : Token → Chars
  | Token.Flag _ => symbol_flag
  | _ => symbol_switch

/-- Destructive take of a list of tags, returning all their slots in
order — the combined take pattern of `check_flag_all`,
`check_option_all` and `check_option`. -/
def take_tags (s : List (Tag × List Nat)) : List Tag → List Nat × List (Tag × List Nat)
  | [] => ([], s)
  | tg :: rest =>
    let r := store_remove s tg
    let r2 := take_tags r.2 rest
    (r.1.getD [] ++ r2.1, r2.2)

/-- The engine-level occurrence-index invariant. -/
def Inv (c : Cli) : Prop := StoreInv c.opt_store c.tokens

/-- The tags a flag query takes: the long form and, when declared, the
switch form. -/
def flag_tags (f : Flag) : List Tag :=
  match f.switch with
  | some ch => [Tag.Flag f.name, Tag.Switch [ch]]
  | none => [Tag.Flag f.name]

/-- Engine states reachable through the public query surface from a
freshly tokenized engine. -/
inductive Reachable : Cli → Prop
  | tokenized (args : List Chars) : Reachable (Cli.new.tokenize args)
  | set_threshold (c : Cli) (cost : Nat) :
      Reachable c → Reachable (c.set_threshold cost)
  | set_help (c : Cli) (h : Help) : Reachable c → Reachable (c.set_help h).2
  | check_flag_all (c : Cli) (f : Flag) :
      Reachable c → Reachable (c.check_flag_all f).2
  | check_flag (c : Cli) (f : Flag) : Reachable c → Reachable (c.check_flag f).2
  | check_flag_n (c : Cli) (f : Flag) (n : Nat) :
      Reachable c → Reachable (c.check_flag_n f n).2
  | check_option_all {τ : Type} (parse : Chars → Except Chars τ) (c : Cli)
      (o : Optional) : Reachable c → Reachable (c.check_option_all parse o).2
  | check_option {τ : Type} (parse : Chars → Except Chars τ) (c : Cli)
      (o : Optional) : Reachable c → Reachable (c.check_option parse o).2
  | check_option_n {τ : Type} (parse : Chars → Except Chars τ) (c : Cli)
      (o : Optional) (n : Nat) :
      Reachable c → Reachable (c.check_option_n parse o n).2
  | check_positional {τ : Type} (oracle : SuggestOracle)
      (parse : Chars → Except Chars τ) (c : Cli) (p : Positional) :
      Reachable c → Reachable (c.check_positional oracle parse p).2
  | require_positional {τ : Type} (oracle : SuggestOracle)
      (parse : Chars → Except Chars τ) (c : Cli) (p : Positional) :
      Reachable c → Reachable (c.require_positional oracle parse p).2
  | check_command_probe (c : Cli) (p : Positional) :
      Reachable c → Reachable (c.check_command_probe p).2
  | match_command (oracle : SuggestOracle) (c : Cli) (words : List Chars) :
      Reachable c → Reachable (c.match_command oracle words).2
  | check_remainder (c : Cli) : Reachable c → Reachable (c.check_remainder).2

/-- A result standing for a Rust `panic!`. -/
def is_panic {α : Type} : Except CliError α → Bool
  | .error (.Panicked _) => true
  | _ => false

/-! ### Association-list lemmas for the occurrence index -/

theorem store_remove_fst (s : List (Tag × List Nat)) (tg : Tag) :
    (store_remove s tg).1 = store_get s tg := by
  induction s with
  | nil => rfl
  | cons p rest ih =>
    obtain ⟨k, v⟩ := p
    by_cases h : k = tg <;> simp [store_remove, store_get, h, ih]

theorem store_remove_sublist (s : List (Tag × List Nat)) (tg : Tag) :
    (store_remove s tg).2.Sublist s := by
  induction s with
  | nil => simp [store_remove]
  | cons p rest ih =>
    obtain ⟨k, v⟩ := p
    by_cases h : k = tg
    · simp [store_remove, h]
    · simpa [store_remove, h] using ih.cons₂ (k, v)

theorem store_remove_absent (s : List (Tag × List Nat)) (tg : Tag)
    (h : store_get s tg = none) : store_remove s tg = (none, s) := by
  induction s with
  | nil => rfl
  | cons p rest ih =>
    obtain ⟨k, v⟩ := p
    by_cases hk : k = tg
    · simp [store_get, hk] at h
    · simp only [store_get, if_neg hk] at h
      simp [store_remove, hk, ih h]

theorem store_get_remove_other (s : List (Tag × List Nat)) (tg tg' : Tag)
    (h : tg' ≠ tg) :
    store_get (store_remove s tg).2 tg' = store_get s tg' := by
  induction s with
  | nil => rfl
  | cons p rest ih =>
    obtain ⟨k, v⟩ := p
    by_cases hk : k = tg
    · subst hk
      simp [store_remove, store_get, Ne.symm h]
    · by_cases hk' : k = tg' <;> simp [store_remove, store_get, hk, hk', ih, h]

theorem store_get_not_mem (s : List (Tag × List Nat)) (tg : Tag)
    (h : tg ∉ store_keys s) : store_get s tg = none := by
  induction s with
  | nil => rfl
  | cons p rest ih =>
    obtain ⟨k, v⟩ := p
    simp only [store_keys, List.map_cons, List.mem_cons, not_or] at h
    simp [store_get, Ne.symm h.1, ih (by simpa [store_keys] using h.2)]

theorem store_get_remove_self (s : List (Tag × List Nat)) (tg : Tag)
    (h : (store_keys s).Nodup) :
    store_get (store_remove s tg).2 tg = none := by
  induction s with
  | nil => rfl
  | cons p rest ih =>
    obtain ⟨k, v⟩ := p
    simp only [store_keys, List.map_cons, List.nodup_cons] at h
    by_cases hk : k = tg
    · subst hk
      simp only [store_remove, if_pos rfl]
      exact store_get_not_mem rest k h.1
    · simp only [store_remove, if_neg hk]
      simp [store_get, hk, ih h.2]

theorem store_keys_remove_nodup (s : List (Tag × List Nat)) (tg : Tag)
    (h : (store_keys s).Nodup) :
    (store_keys (store_remove s tg).2).Nodup :=
  ((store_remove_sublist s tg).map Prod.fst).nodup h

/-! ### Structure of `check_flag_all` / `check_option_all` -/

/-- The final occurrence index of `check_flag_all` is the input index
with the flag tag and (when declared) the switch tag removed, on every
branch. -/
theorem check_flag_all_opt_store (c : Cli) (f : Flag) :
    ((c.check_flag_all f).2).opt_store =
      (match f.switch with
       | some ch =>
         (store_remove (store_remove c.opt_store (Tag.Flag f.name)).2
           (Tag.Switch [ch])).2
       | none => (store_remove c.opt_store (Tag.Flag f.name)).2) := by
  unfold Cli.check_flag_all Cli.take_flag_locs Cli.take_switch_locs Cli.pull_flag
  cases f.switch <;> dsimp only <;> split <;> (first | split | skip) <;> rfl

/-- Running `check_flag_all` on a flag that occurs nowhere in the index
returns a zero count. -/
theorem check_flag_all_absent (c : Cli) (f : Flag)
    (h1 : store_get c.opt_store (Tag.Flag f.name) = none)
    (h2 : ∀ ch, f.switch = some ch →
      store_get c.opt_store (Tag.Switch [ch]) = none) :
    (c.check_flag_all f).1 = .ok 0 := by
  unfold Cli.check_flag_all Cli.take_flag_locs Cli.take_switch_locs Cli.pull_flag
  cases hs : f.switch with
  | none =>
    simp [store_remove_absent _ _ h1, pull_flag_toks]
  | some ch =>
    simp [store_remove_absent _ _ h1, store_remove_absent _ _ (h2 ch hs),
      pull_flag_toks]

/-- The final occurrence index of `check_option_all`, on every branch. -/
theorem check_option_all_opt_store {τ : Type} (parse : Chars → Except Chars τ)
    (c : Cli) (o : Optional) :
    ((c.check_option_all parse o).2).opt_store =
      (match o.flag.switch with
       | some ch =>
         (store_remove (store_remove c.opt_store (Tag.Flag o.flag.name)).2
           (Tag.Switch [ch])).2
       | none => (store_remove c.opt_store (Tag.Flag o.flag.name)).2) := by
  unfold Cli.check_option_all Cli.take_flag_locs Cli.take_switch_locs Cli.pull_flag
  cases o.flag.switch <;> dsimp only <;> split <;>
    (first | split | skip) <;> (first | split | skip) <;> (first | split | skip) <;> rfl

/-- Running `check_option_all` on an option that occurs nowhere in the index
returns none. -/
theorem check_option_all_absent {τ : Type} (parse : Chars → Except Chars τ)
    (c : Cli) (o : Optional)
    (h1 : store_get c.opt_store (Tag.Flag o.flag.name) = none)
    (h2 : ∀ ch, o.flag.switch = some ch →
      store_get c.opt_store (Tag.Switch [ch]) = none) :
    (c.check_option_all parse o).1 = .ok none := by
  unfold Cli.check_option_all Cli.take_flag_locs Cli.take_switch_locs Cli.pull_flag
  cases hs : o.flag.switch with
  | none =>
    simp [store_remove_absent _ _ h1, pull_flag_toks]
  | some ch =>
    simp [store_remove_absent _ _ h1, store_remove_absent _ _ (h2 ch hs),
      pull_flag_toks]

/-- After `check_flag_all` both tags of the flag are gone from the
occurrence index (keys are unique in every lexer-built index). -/
theorem check_flag_all_tags_gone (c : Cli) (f : Flag)
    (hnd : (store_keys c.opt_store).Nodup) :
    store_get ((c.check_flag_all f).2).opt_store (Tag.Flag f.name) = none ∧
    (∀ ch, f.switch = some ch →
      store_get ((c.check_flag_all f).2).opt_store (Tag.Switch [ch]) = none) := by
  rw [check_flag_all_opt_store]
  cases hs : f.switch with
  | none =>
    refine ⟨store_get_remove_self _ _ hnd, ?_⟩
    intro ch he
    simp [hs] at he
  | some ch =>
    dsimp only
    constructor
    · rw [store_get_remove_other _ _ _ (by simp)]
      exact store_get_remove_self _ _ hnd
    · intro ch' he
      injection he with he
      subst he
      exact store_get_remove_self _ _ (store_keys_remove_nodup _ _ hnd)

/-- After `check_option_all` both tags of the option are gone from the
occurrence index. -/
theorem check_option_all_tags_gone {τ : Type} (parse : Chars → Except Chars τ)
    (c : Cli) (o : Optional)
    (hnd : (store_keys c.opt_store).Nodup) :
    store_get ((c.check_option_all parse o).2).opt_store (Tag.Flag o.flag.name) = none ∧
    (∀ ch, o.flag.switch = some ch →
      store_get ((c.check_option_all parse o).2).opt_store (Tag.Switch [ch]) = none) := by
  rw [check_option_all_opt_store]
  cases hs : o.flag.switch with
  | none =>
    refine ⟨store_get_remove_self _ _ hnd, ?_⟩
    intro ch he
    simp [hs] at he
  | some ch =>
    dsimp only
    constructor
    · rw [store_get_remove_other _ _ _ (by simp)]
      exact store_get_remove_self _ _ hnd
    · intro ch' he
      injection he with he
      subst he
      exact store_get_remove_self _ _ (store_keys_remove_nodup _ _ hnd)

/-- C1.  At-most-once consumption: `take_flag_locs` and
`take_switch_locs` remove the tag's entry from the occurrence index and
return its ordered slot list (empty when the tag is absent); hence on
any engine whose index has unique keys (as every lexer-built index
does), a second `check_flag_all` of the same flag after a first
successful one counts zero occurrences, and a second
`check_option_all` of the same option returns none, regardless of how
many occurrences the original input contained. -/
theorem c1_at_most_once_consumption :
    (∀ (c : Cli) (tag : Chars),
      (c.take_flag_locs tag).1 = (store_get c.opt_store (Tag.Flag tag)).getD [] ∧
      ((store_keys c.opt_store).Nodup →
        store_get ((c.take_flag_locs tag).2).opt_store (Tag.Flag tag) = none)) ∧
    (∀ (c : Cli) (ch : Char),
      (c.take_switch_locs ch).1 = (store_get c.opt_store (Tag.Switch [ch])).getD [] ∧
      ((store_keys c.opt_store).Nodup →
        store_get ((c.take_switch_locs ch).2).opt_store (Tag.Switch [ch]) = none)) ∧
    (∀ (c : Cli) (f : Flag) (k : Nat),
      (store_keys c.opt_store).Nodup →
      (c.check_flag_all f).1 = .ok k →
      (((c.check_flag_all f).2).check_flag_all f).1 = .ok 0) ∧
    (∀ (τ : Type) (parse : Chars → Except Chars τ) (c : Cli) (o : Optional)
      (vs : Option (List τ)),
      (store_keys c.opt_store).Nodup →
      (c.check_option_all parse o).1 = .ok vs →
      (((c.check_option_all parse o).2).check_option_all parse o).1 = .ok none) := by
  refine ⟨?_, ?_, ?_, ?_⟩
  · intro c tag
    refine ⟨by simp [Cli.take_flag_locs, store_remove_fst], ?_⟩
    intro hnd
    simpa [Cli.take_flag_locs] using store_get_remove_self c.opt_store (Tag.Flag tag) hnd
  · intro c ch
    refine ⟨by simp [Cli.take_switch_locs, store_remove_fst], ?_⟩
    intro hnd
    simpa [Cli.take_switch_locs] using
      store_get_remove_self c.opt_store (Tag.Switch [ch]) hnd
  · intro c f k hnd _
    obtain ⟨h1, h2⟩ := check_flag_all_tags_gone c f hnd
    exact check_flag_all_absent _ f h1 h2
  · intro τ parse c o vs hnd _
    obtain ⟨h1, h2⟩ := check_option_all_tags_gone parse c o hnd
    exact check_option_all_absent parse _ o h1 h2

/-- C1 witness: on `["prog","--debug","--debug"]` the first query
counts two occurrences and the second counts zero. -/
theorem c1_at_most_once_consumption_witness :
    (((Cli.new.tokenize ["prog".toList, "--debug".toList, "--debug".toList]).check_flag_all
        { name := "debug".toList }).2.check_flag_all { name := "debug".toList }).1 =
      .ok 0 :=
  c1_at_most_once_consumption.2.2.1
    (Cli.new.tokenize ["prog".toList, "--debug".toList, "--debug".toList])
    { name := "debug".toList } 2 (by decide) (by decide)

/-- Lemma: `skip_rem` leaves a terminator-free stream untouched and collects
nothing. -/
theorem skip_rem_no_term (toks : List (Option Token))
    (h : toks.all (fun t => !(is_term t)) = true) :
    skip_rem toks = (.ok [], toks) := by
  induction toks with
  | nil => rfl
  | cons t rest ih =>
    simp only [List.all_cons, Bool.and_eq_true, Bool.not_eq_true'] at h
    have ht := h.1
    have ih' := ih (by simpa using h.2)
    cases t with
    | none => simp [skip_rem, ih']
    | some tok =>
      cases tok <;> simp_all [skip_rem, is_term, ih']

/-- C10.  `check_remainder` on a stream without a terminator returns
success with the empty list and leaves the whole engine state (token
stream, occurrence index and ledger) unchanged. -/
theorem c10_check_remainder_no_terminator (c : Cli)
    (h : c.tokens.all (fun t => !(is_term t)) = true) :
    c.check_remainder = (.ok [], c) := by
  unfold Cli.check_remainder
  rw [skip_rem_no_term _ h]

/-- C10 witness: `["prog","--help"]` has no terminator and draining it
is a no-op. -/
theorem c10_check_remainder_no_terminator_witness :
    (Cli.new.tokenize ["prog".toList, "--help".toList]).check_remainder =
      (.ok [], Cli.new.tokenize ["prog".toList, "--help".toList]) :=
  c10_check_remainder_no_terminator _ (by decide)

/-- C8.  Idempotence of the completeness check: `is_empty` borrows the
engine immutably, so the state handed back by a call is the input
state, and a second call after a successful one succeeds again (and
again returns the unchanged state). -/
theorem c8_is_empty_idempotent (oracle : SuggestOracle) (c : Cli)
    (h : (c.is_empty_call oracle).1 = .ok ()) :
    ((c.is_empty_call oracle).2).is_empty_call oracle = (.ok (), c) := by
  show (c.is_empty oracle, c) = (.ok (), c)
  rw [show c.is_empty oracle = .ok () from h]

/-- C8 witness: after draining nothing from `["prog"]`, two successive
completeness checks both succeed. -/
theorem c8_is_empty_idempotent_witness :
    (((Cli.new.tokenize ["prog".toList]).is_empty_call no_oracle).2).is_empty_call
        no_oracle = (.ok (), Cli.new.tokenize ["prog".toList]) :=
  c8_is_empty_idempotent no_oracle (Cli.new.tokenize ["prog".toList]) (by decide)

/-! ### Lexer structure lemmas -/

theorem lex_arg_terminated (st : LexState) (i : Nat) (a : Chars)
    (h : st.terminated = true) :
    lex_arg st i a = { st with tokens := st.tokens ++ [some (Token.Ignore i a)] } := by
  unfold lex_arg
  rw [h]
  simp

theorem lex_all_terminated (xs : List Chars) :
    ∀ (st : LexState) (i : Nat), st.terminated = true →
      lex_all st i xs = { st with tokens := st.tokens ++ ignore_tokens i xs } := by
  induction xs with
  | nil => intro st i _; simp [lex_all, ignore_tokens]
  | cons a rest ih =>
    intro st i h
    rw [lex_all, lex_arg_terminated st i a h,
      ih { st with tokens := st.tokens ++ [some (Token.Ignore i a)] } (i + 1) h]
    simp [ignore_tokens]

theorem lex_all_append (xs ys : List Chars) :
    ∀ (st : LexState) (i : Nat),
      lex_all st i (xs ++ ys) = lex_all (lex_all st i xs) (i + xs.length) ys := by
  induction xs with
  | nil => intro st i; simp [lex_all]
  | cons a rest ih =>
    intro st i
    rw [List.cons_append, lex_all, lex_all, ih,
      show i + (a :: rest).length = (i + 1) + rest.length by
        simp [List.length_cons]; omega]

/-- Lexing the literal `--=value` in non-terminated mode emits the
terminator followed by the split-off attached value, and terminates
the stream. -/
theorem lex_arg_terminator_value (st : LexState) (i : Nat) (v : Chars)
    (h : st.terminated = false) :
    lex_arg st i ('-' :: '-' :: '=' :: v) =
      { st with
        tokens := st.tokens ++
          [some (Token.Terminator i), some (Token.AttachedArgument i v)],
        terminated := true } := by
  unfold lex_arg
  rw [h]
  simp only [Bool.false_eq_true, if_false]
  have hsw : symbol_switch.isPrefixOf ('-' :: '-' :: '=' :: v) = true := by
    simp [symbol_switch, List.isPrefixOf]
  rw [if_pos hsw]
  have hsp : split_once_eq ('-' :: '-' :: '=' :: v) = some (['-', '-'], v) := by
    simp [split_once_eq, split_once_eq_aux]
  rw [hsp]
  simp [lex_attach, lex_core, symbol_flag, List.isPrefixOf]

/-- C5.  Lexer terminator-with-value quirk: once a terminator has been
seen every subsequent argument is lexed verbatim as `Ignore`; and for
any raw argument list whose prefix has not terminated the stream, the
literal `--=value` argument emits a `Terminator` followed by an
`AttachedArgument` carrying the value, with every later argument
becoming `Ignore`. -/
theorem c5_lexer_terminator_quirk :
    (∀ (st : LexState) (i : Nat) (xs : List Chars), st.terminated = true →
      lex_all st i xs = { st with tokens := st.tokens ++ ignore_tokens i xs }) ∧
    (∀ (prog : Chars) (pre : List Chars) (v : Chars) (post : List Chars),
      (lex_all lex_init 0 pre).terminated = false →
      (Cli.new.tokenize (prog :: (pre ++ ('-' :: '-' :: '=' :: v) :: post))).tokens =
        (lex_all lex_init 0 pre).tokens ++
          some (Token.Terminator pre.length) ::
          some (Token.AttachedArgument pre.length v) ::
          ignore_tokens (pre.length + 1) post) := by
  constructor
  · intro st i xs h
    exact lex_all_terminated xs st i h
  · intro prog pre v post h
    show (lex_all lex_init 0 ((prog :: (pre ++ ('-' :: '-' :: '=' :: v) :: post)).drop 1)).tokens = _
    rw [List.drop_one, List.tail_cons, lex_all_append, lex_all,
      lex_arg_terminator_value _ _ v h, lex_all_terminated post _ _ rfl]
    simp [Nat.zero_add]

/-- C5 witness: `["prog","a","--=value","extra"]` lexes to an
unattached argument, the terminator, the attached value, and one
ignored word. -/
theorem c5_lexer_terminator_quirk_witness :
    (Cli.new.tokenize
        ["prog".toList, "a".toList, ('-' :: '-' :: '=' :: "value".toList),
         "extra".toList]).tokens =
      (lex_all lex_init 0 ["a".toList]).tokens ++
        some (Token.Terminator 1) ::
        some (Token.AttachedArgument 1 "value".toList) ::
        ignore_tokens 2 ["extra".toList] :=
  c5_lexer_terminator_quirk.2 "prog".toList ["a".toList] "value".toList
    ["extra".toList] (by decide)

/-! ### `check_remainder` structure -/

theorem drain_rem_ignores (post : List Chars) :
    ∀ i : Nat, drain_rem (ignore_tokens i post) =
      (.ok post, List.replicate post.length none) := by
  induction post with
  | nil => intro i; rfl
  | cons a rest ih =>
    intro i
    simp [ignore_tokens, drain_rem, ih (i + 1), List.replicate]

theorem skip_rem_to_term (pre : List (Option Token)) (i : Nat)
    (rest : List (Option Token))
    (h : pre.all (fun t => !(is_term t)) = true) :
    skip_rem (pre ++ some (Token.Terminator i) :: rest) =
      ((drain_rem rest).1, pre ++ none :: (drain_rem rest).2) := by
  induction pre with
  | nil => simp [skip_rem]
  | cons t pre' ih =>
    simp only [List.all_cons, Bool.and_eq_true, Bool.not_eq_true'] at h
    have ih' := ih h.2
    cases t with
    | none => simp [skip_rem, ih']
    | some tok => cases tok <;> simp_all [skip_rem, is_term]

/-- C6.  `check_remainder` semantics: with a terminator in the stream
it removes the terminator and every ignored token after it, returning
the ignored texts in original order; an attached argument stuck behind
the terminator fails with `UnexpectedValue`; and on
`["prog","--","a","b"]` it yields `["a","b"]` after which `is_empty`
succeeds. -/
theorem c6_check_remainder_semantics :
    (∀ (c : Cli) (pre : List (Option Token)) (i j : Nat) (post : List Chars),
      pre.all (fun t => !(is_term t)) = true →
      c.tokens = pre ++ some (Token.Terminator i) :: ignore_tokens j post →
      c.check_remainder =
        (.ok post,
         { c with tokens := pre ++ none :: List.replicate post.length none })) ∧
    (∀ (c : Cli) (pre : List (Option Token)) (i j : Nat) (s : Chars)
      (rest : List (Option Token)),
      pre.all (fun t => !(is_term t)) = true →
      c.tokens = pre ++ some (Token.Terminator i) ::
        some (Token.AttachedArgument j s) :: rest →
      c.check_remainder =
        (.error (.UnexpectedValue (Arg.Flag { name := [] }) s),
         { c with tokens := pre ++ none :: none :: rest })) ∧
    ((Cli.new.tokenize ["prog".toList, "--".toList, "a".toList, "b".toList]).check_remainder.1 =
        .ok ["a".toList, "b".toList] ∧
      ((Cli.new.tokenize
          ["prog".toList, "--".toList, "a".toList, "b".toList]).check_remainder.2).is_empty
        no_oracle = .ok ()) := by
  refine ⟨?_, ?_, by decide, by decide⟩
  · intro c pre i j post hpre htoks
    unfold Cli.check_remainder
    rw [htoks, skip_rem_to_term pre i _ hpre, drain_rem_ignores post j]
  · intro c pre i j s rest hpre htoks
    unfold Cli.check_remainder
    rw [htoks, skip_rem_to_term pre i _ hpre]
    rfl

/-! ### The occurrence-index invariant -/

theorem SlotOk.lt {toks : List (Option Token)} {l : Nat}
    (h : SlotOk toks l) : l < toks.length := by
  obtain ⟨t, ht, _⟩ := h
  by_contra hge
  rw [List.get?_eq_none.2 (Nat.le_of_not_lt hge)] at ht
  exact Option.noConfusion ht

theorem SlotOk.append {toks ts : List (Option Token)} {l : Nat}
    (h : SlotOk toks l) : SlotOk (toks ++ ts) l := by
  obtain ⟨t, ht, hf⟩ := h
  exact ⟨t, by rw [List.get?_append (SlotOk.lt ⟨t, ht, hf⟩), ht], hf⟩

theorem mem_store_all_locs {s : List (Tag × List Nat)} {l : Nat} :
    l ∈ store_all_locs s ↔ ∃ p ∈ s, l ∈ p.2 :=
  List.mem_flatMap

theorem store_all_locs_cons (p : Tag × List Nat) (s : List (Tag × List Nat)) :
    store_all_locs (p :: s) = p.2 ++ store_all_locs s := rfl

/-- Lemma: `StoreInv` is unaffected by appending fresh slots to the stream. -/
theorem StoreInv.append_tokens {s : List (Tag × List Nat)}
    {toks ts : List (Option Token)} (h : StoreInv s toks) :
    StoreInv s (toks ++ ts) := by
  refine ⟨h.1, h.2.1, fun p hp => ?_⟩
  obtain ⟨h1, h2, h3⟩ := h.2.2 p hp
  exact ⟨h1, h2, fun l hl => (h3 l hl).append⟩

theorem store_push_cons_eq (k : Tag) (v : List Nat)
    (rest : List (Tag × List Nat)) (idx : Nat) :
    store_push ((k, v) :: rest) k idx = (k, v ++ [idx]) :: rest := by
  simp [store_push]

theorem store_push_cons_ne (k tg : Tag) (h : ¬k = tg) (v : List Nat)
    (rest : List (Tag × List Nat)) (idx : Nat) :
    store_push ((k, v) :: rest) tg idx = (k, v) :: store_push rest tg idx := by
  simp [store_push, h]

theorem store_push_keys (s : List (Tag × List Nat)) (tg : Tag) (idx : Nat) :
    store_keys (store_push s tg idx) =
      if tg ∈ store_keys s then store_keys s else store_keys s ++ [tg] := by
  induction s with
  | nil => simp [store_push, store_keys]
  | cons p rest ih =>
    obtain ⟨k, v⟩ := p
    by_cases hk : k = tg
    · subst hk
      simp [store_push, store_keys]
    · have hne : tg ≠ k := fun h => hk h.symm
      simp only [store_push, if_neg hk, store_keys, List.map_cons] at ih ⊢
      rw [ih]
      by_cases hm : tg ∈ List.map Prod.fst rest <;>
        simp [List.mem_cons, hne, hm]

theorem mem_store_push {tg : Tag} {idx : Nat} :
    ∀ {s : List (Tag × List Nat)} {p : Tag × List Nat},
      p ∈ store_push s tg idx →
      p ∈ s ∨ (∃ v, (tg, v) ∈ s ∧ p = (tg, v ++ [idx])) ∨
        (tg ∉ store_keys s ∧ p = (tg, [idx])) := by
  intro s
  induction s with
  | nil =>
    intro p h
    simp only [store_push, List.mem_singleton] at h
    exact Or.inr (Or.inr ⟨by simp [store_keys], h⟩)
  | cons q rest ih =>
    obtain ⟨k, v⟩ := q
    intro p h
    by_cases hk : k = tg
    · subst hk
      rw [store_push_cons_eq, List.mem_cons] at h
      rcases h with h | h
      · exact Or.inr (Or.inl ⟨v, List.mem_cons_self _ _, h⟩)
      · exact Or.inl (List.mem_cons_of_mem _ h)
    · rw [store_push_cons_ne k tg hk, List.mem_cons] at h
      rcases h with h | h
      · exact Or.inl (h ▸ List.mem_cons_self _ _)
      · rcases ih h with h' | ⟨w, hw, he⟩ | ⟨hnm, he⟩
        · exact Or.inl (List.mem_cons_of_mem _ h')
        · exact Or.inr (Or.inl ⟨w, List.mem_cons_of_mem _ hw, he⟩)
        · refine Or.inr (Or.inr ⟨?_, he⟩)
          simp only [store_keys, List.map_cons, List.mem_cons]
          rintro (h'' | h'')
          · exact hk h''.symm
          · exact hnm (by simpa [store_keys] using h'')

theorem mem_store_all_locs_push {s : List (Tag × List Nat)} {tg : Tag}
    {idx l : Nat} (h : l ∈ store_all_locs (store_push s tg idx)) :
    l ∈ store_all_locs s ∨ l = idx := by
  rw [mem_store_all_locs] at h
  obtain ⟨p, hp, hl⟩ := h
  rcases mem_store_push hp with h' | ⟨v, hv, he⟩ | ⟨_, he⟩
  · exact Or.inl (mem_store_all_locs.2 ⟨p, h', hl⟩)
  · subst he
    simp only [List.mem_append, List.mem_singleton] at hl
    rcases hl with hl | hl
    · exact Or.inl (mem_store_all_locs.2 ⟨(tg, v), hv, hl⟩)
    · exact Or.inr hl
  · subst he
    simp only [List.mem_singleton] at hl
    exact Or.inr hl

theorem store_all_locs_push_nodup {s : List (Tag × List Nat)} {tg : Tag}
    {idx : Nat} (hnd : (store_all_locs s).Nodup)
    (hb : ∀ l ∈ store_all_locs s, l < idx) :
    (store_all_locs (store_push s tg idx)).Nodup := by
  induction s with
  | nil => simp [store_push, store_all_locs]
  | cons q rest ih =>
    obtain ⟨k, v⟩ := q
    rw [store_all_locs_cons, List.nodup_append] at hnd
    have hbv : ∀ l ∈ v, l < idx := fun l hl =>
      hb l (by rw [store_all_locs_cons]; exact List.mem_append_left _ hl)
    have hbrest : ∀ l ∈ store_all_locs rest, l < idx := fun l hl =>
      hb l (by rw [store_all_locs_cons]; exact List.mem_append_right _ hl)
    by_cases hk : k = tg
    · subst hk
      rw [store_push_cons_eq]
      rw [store_all_locs_cons, List.nodup_append, List.nodup_append]
      refine ⟨⟨hnd.1, List.nodup_singleton idx, ?_⟩, hnd.2.1, ?_⟩
      · intro a ha hb'
        simp only [List.mem_singleton] at hb'
        exact Nat.ne_of_lt (hbv a ha) hb'
      · intro a ha hb'
        simp only [List.mem_append, List.mem_singleton] at ha
        rcases ha with ha | ha
        · exact hnd.2.2 ha hb'
        · subst ha
          exact Nat.ne_of_lt (hbrest a hb') rfl
    · rw [store_push_cons_ne k tg hk]
      rw [store_all_locs_cons, List.nodup_append]
      refine ⟨hnd.1, ih hnd.2.1 hbrest, ?_⟩
      intro a ha hb'
      rcases mem_store_all_locs_push hb' with h' | h'
      · exact hnd.2.2 ha h'
      · subst h'
        exact Nat.ne_of_lt (hbv a ha) rfl

/-- Registering the next slot for a tag and appending the matching
flag-form token preserves the occurrence-index invariant (each slot is
pushed exactly once, at the current end of the stream). -/
theorem StoreInv.push {s : List (Tag × List Nat)} {toks : List (Option Token)}
    {tg : Tag} {t : Token} (hinv : StoreInv s toks)
    (hft : flag_like t = true) :
    StoreInv (store_push s tg toks.length) (toks ++ [some t]) := by
  obtain ⟨hkeys, hlocs, hent⟩ := hinv
  have hb : ∀ l ∈ store_all_locs s, l < toks.length := by
    intro l hl
    obtain ⟨p, hp, hlp⟩ := mem_store_all_locs.1 hl
    exact ((hent p hp).2.2 l hlp).lt
  refine ⟨?_, store_all_locs_push_nodup hlocs hb, ?_⟩
  · rw [store_push_keys]
    by_cases hmem : tg ∈ store_keys s
    · rw [if_pos hmem]
      exact hkeys
    · rw [if_neg hmem, List.nodup_append]
      refine ⟨hkeys, List.nodup_singleton tg, ?_⟩
      intro a ha hb'
      simp only [List.mem_singleton] at hb'
      subst hb'
      exact hmem ha
  · intro p hp
    have hnew : SlotOk (toks ++ [some t]) toks.length :=
      ⟨t, by rw [List.get?_concat_length], hft⟩
    rcases mem_store_push hp with h' | ⟨v, hv, he⟩ | ⟨_, he⟩
    · obtain ⟨h1, h2, h3⟩ := hent p h'
      exact ⟨h1, h2, fun l hl => (h3 l hl).append⟩
    · subst he
      obtain ⟨h1, h2, h3⟩ := hent (tg, v) hv
      refine ⟨by simp, ?_, ?_⟩
      · rw [List.chain'_append]
        refine ⟨h2, List.chain'_singleton _, ?_⟩
        intro x hx y hy
        simp only [List.head?_cons, Option.mem_def, Option.some_inj] at hy
        subst hy
        have hxv : x ∈ v := List.mem_of_mem_getLast? hx
        exact hb x (mem_store_all_locs.2 ⟨(tg, v), hv, hxv⟩)
      · intro l hl
        simp only [List.mem_append, List.mem_singleton] at hl
        rcases hl with hl | hl
        · exact (h3 l hl).append
        · exact hl ▸ hnew
    · subst he
      exact ⟨by simp, List.chain'_singleton _, by
        intro l hl
        simp only [List.mem_singleton] at hl
        exact hl ▸ hnew⟩

theorem lex_switch_rest_inv (cs : List Char) :
    ∀ (st : LexState) (i : Nat), StoreInv st.store st.tokens →
      StoreInv (lex_switch_rest st i cs).store (lex_switch_rest st i cs).tokens := by
  induction cs with
  | nil => intro st i h; exact h
  | cons ch rest ih =>
    intro st i h
    exact ih _ i (h.push rfl)

theorem lex_core_inv (st : LexState) (i : Nat) (argp : Chars)
    (h : StoreInv st.store st.tokens) :
    StoreInv (lex_core st i argp).store (lex_core st i argp).tokens := by
  unfold lex_core
  by_cases hf : symbol_flag.isPrefixOf argp = true
  · rw [if_pos hf]
    dsimp only
    by_cases hn : argp.drop 2 = []
    · rw [if_pos hn]
      exact h.append_tokens
    · rw [if_neg hn]
      exact h.push rfl
  · rw [if_neg hf]
    cases hd : argp.drop 1 with
    | nil => exact h.push rfl
    | cons cch rest => exact lex_switch_rest_inv rest _ i (h.push rfl)

theorem lex_attach_inv (st1 : LexState) (i : Nat) (v : Option Chars)
    (h : StoreInv st1.store st1.tokens) :
    StoreInv (lex_attach st1 i v).store (lex_attach st1 i v).tokens := by
  cases v with
  | none => exact h
  | some s => exact h.append_tokens

theorem lex_arg_inv (st : LexState) (i : Nat) (a : Chars)
    (h : StoreInv st.store st.tokens) :
    StoreInv (lex_arg st i a).store (lex_arg st i a).tokens := by
  unfold lex_arg
  by_cases ht : st.terminated = true
  · rw [if_pos ht]
    exact h.append_tokens
  · rw [if_neg ht]
    by_cases hsw : symbol_switch.isPrefixOf a = true
    · rw [if_pos hsw]
      exact lex_attach_inv _ i _ (lex_core_inv st i _ h)
    · rw [if_neg hsw]
      exact h.append_tokens

theorem lex_all_inv (xs : List Chars) :
    ∀ (st : LexState) (i : Nat), StoreInv st.store st.tokens →
      StoreInv (lex_all st i xs).store (lex_all st i xs).tokens := by
  induction xs with
  | nil => intro st i h; exact h
  | cons a rest ih =>
    intro st i h
    exact ih _ _ (lex_arg_inv st i a h)

theorem StoreInv.nil (toks : List (Option Token)) : StoreInv [] toks :=
  ⟨by simp [store_keys], by simp [store_all_locs], by simp⟩

/-- Every freshly tokenized engine satisfies the occurrence-index
invariant. -/
theorem tokenize_store_inv (c : Cli) (args : List Chars) :
    StoreInv (c.tokenize args).opt_store (c.tokenize args).tokens := by
  unfold Cli.tokenize
  exact lex_all_inv _ _ _ (StoreInv.nil _)

theorem store_get_mem {s : List (Tag × List Nat)} {tg : Tag} {locs : List Nat}
    (h : store_get s tg = some locs) : (tg, locs) ∈ s := by
  induction s with
  | nil => cases h
  | cons p rest ih =>
    obtain ⟨k, v⟩ := p
    by_cases hk : k = tg
    · subst hk
      simp only [store_get, eq_self_iff_true, if_true, Option.some_inj] at h
      subst h
      exact List.mem_cons_self _ _
    · simp only [store_get, if_neg hk] at h
      exact List.mem_cons_of_mem _ (ih h)

/-- C2.  Order preservation for value-bearing options: in every
tokenized stream each tag's recorded slot list is strictly increasing
(so pulling the values walks the stream left to right, mixing attached
and following-token forms transparently); in particular querying the
`rate` option of `["prog","--rate","10","--rate=9","--rate","1"]` as a
number list yields `[10, 9, 1]` in that order. -/
theorem c2_option_order_preservation :
    (∀ (args : List Chars) (tg : Tag) (locs : List Nat),
      store_get (Cli.new.tokenize args).opt_store tg = some locs →
      locs.Chain' (· < ·)) ∧
    ((Cli.new.tokenize
        ["prog".toList, "--rate".toList, "10".toList, "--rate=9".toList,
         "--rate".toList, "1".toList]).check_option_all parse_nat
      { flag := { name := "rate".toList } }).1 = .ok (some [10, 9, 1]) := by
  constructor
  · intro args tg locs h
    exact ((tokenize_store_inv Cli.new args).2.2 (tg, locs) (store_get_mem h)).2.1
  · decide

/-- C2 witness: the example's index entry for `rate` is `[0, 2, 4]`,
a strictly increasing slot list. -/
theorem c2_option_order_preservation_witness :
    store_get (Cli.new.tokenize
        ["prog".toList, "--rate".toList, "10".toList, "--rate=9".toList,
         "--rate".toList, "1".toList]).opt_store (Tag.Flag "rate".toList) =
      some [0, 2, 4] ∧
    List.Chain' (· < ·) [0, 2, 4] :=
  ⟨by decide,
   c2_option_order_preservation.1
     ["prog".toList, "--rate".toList, "10".toList, "--rate=9".toList,
      "--rate".toList, "1".toList] (Tag.Flag "rate".toList) [0, 2, 4] (by decide)⟩

/-! ### Monotone shrinking of the stream -/

theorem occupied_set_none (l : List (Option Token)) (k : Nat) :
    occupied (l.set k none) ≤ occupied l := by
  induction l generalizing k with
  | nil => simp [occupied]
  | cons t rest ih =>
    cases k with
    | zero =>
      simp only [List.set, occupied, List.countP_cons]
      have : (fun t : Option Token => t.isSome) none = false := rfl
      cases t <;> simp [occupied] at * <;> omega
    | succ k' =>
      simp only [List.set, occupied, List.countP_cons]
      have := ih k'
      simp only [occupied] at this
      omega

theorem pull_step_snd (t1 : List (Option Token)) (loc : Nat) (b : Bool) :
    (pull_step t1 loc b).2 = t1 ∨
      (pull_step t1 loc b).2 = t1.set (loc + 1) none := by
  unfold pull_step
  split
  · exact Or.inr rfl
  · split
    · exact Or.inr rfl
    · exact Or.inl rfl
  · exact Or.inl rfl

theorem pull_step_occupied (t1 : List (Option Token)) (loc : Nat) (b : Bool) :
    occupied (pull_step t1 loc b).2 ≤ occupied t1 := by
  rcases pull_step_snd t1 loc b with h | h
  · rw [h]
  · rw [h]
    exact occupied_set_none t1 (loc + 1)

theorem pull_flag_occupied (locs : List Nat) :
    ∀ (toks : List (Option Token)) (b : Bool),
      occupied (pull_flag_toks toks b locs).2 ≤ occupied toks := by
  induction locs with
  | nil => intro toks b; exact le_refl _
  | cons loc rest ih =>
    intro toks b
    show occupied (pull_flag_toks (pull_step (toks.set loc none) loc b).2 b rest).2 ≤ _
    exact le_trans (ih _ b)
      (le_trans (pull_step_occupied _ loc b) (occupied_set_none toks loc))

theorem next_uarg_occupied (toks : List (Option Token)) :
    occupied (next_uarg_toks toks).2 ≤ occupied toks := by
  induction toks with
  | nil => exact le_refl _
  | cons t rest ih =>
    cases t with
    | none =>
      simp only [next_uarg_toks, occupied, List.countP_cons]
      simp only [occupied] at ih
      omega
    | some tok =>
      cases tok <;>
        simp only [next_uarg_toks, occupied, List.countP_cons] <;>
        simp only [occupied] at ih <;>
        simp <;> omega

/-- Anatomy of `check_flag_all`: its final stream is a `pull_flag`
image of the input stream, its index is the input index with the two
tags removed, and on success the ledger is the input ledger with the
flag appended. -/
theorem check_flag_all_anatomy (c : Cli) (f : Flag) :
    (∃ locs, ((c.check_flag_all f).2).tokens =
      (pull_flag_toks c.tokens false locs).2) ∧
    ((c.check_flag_all f).2).opt_store.Sublist c.opt_store ∧
    (∀ v, (c.check_flag_all f).1 = .ok v →
      ((c.check_flag_all f).2).known_args = c.known_args ++ [Arg.Flag f]) := by
  have hsub : ∀ tg tg', ((store_remove (store_remove c.opt_store tg).2 tg').2).Sublist
      c.opt_store :=
    fun tg tg' => (store_remove_sublist _ tg').trans (store_remove_sublist _ tg)
  unfold Cli.check_flag_all Cli.take_flag_locs Cli.take_switch_locs Cli.pull_flag
  cases f.switch <;> dsimp only <;> split <;> (first | split | skip) <;>
    first
    | exact ⟨⟨_, rfl⟩, store_remove_sublist _ _,
        by intro v h; first | rfl | cases h⟩
    | exact ⟨⟨_, rfl⟩, hsub _ _, by intro v h; first | rfl | cases h⟩

/-- Anatomy of `check_option_all`. -/
theorem check_option_all_anatomy {τ : Type} (parse : Chars → Except Chars τ)
    (c : Cli) (o : Optional) :
    (∃ locs, ((c.check_option_all parse o).2).tokens =
      (pull_flag_toks c.tokens true locs).2) ∧
    ((c.check_option_all parse o).2).opt_store.Sublist c.opt_store ∧
    (∀ v, (c.check_option_all parse o).1 = .ok v →
      ((c.check_option_all parse o).2).known_args =
        c.known_args ++ [Arg.Optional o]) := by
  have hsub : ∀ tg tg', ((store_remove (store_remove c.opt_store tg).2 tg').2).Sublist
      c.opt_store :=
    fun tg tg' => (store_remove_sublist _ tg').trans (store_remove_sublist _ tg)
  unfold Cli.check_option_all Cli.take_flag_locs Cli.take_switch_locs Cli.pull_flag
  cases o.flag.switch <;> dsimp only <;> split <;> (first | split | skip) <;>
    (first | split | skip) <;> (first | split | skip)
  all_goals
    first
    | exact ⟨⟨_, rfl⟩, store_remove_sublist _ _,
        by intro v h; first | rfl | cases h⟩
    | exact ⟨⟨_, rfl⟩, hsub _ _, by intro v h; first | rfl | cases h⟩

/-- Anatomy of `check_positional`. -/
theorem check_positional_anatomy {τ : Type} (oracle : SuggestOracle)
    (parse : Chars → Except Chars τ) (c : Cli) (p : Positional) :
    ((c.check_positional oracle parse p).2).tokens = (next_uarg_toks c.tokens).2 ∧
    ((c.check_positional oracle parse p).2).opt_store = c.opt_store ∧
    (∀ v, (c.check_positional oracle parse p).1 = .ok v →
      ((c.check_positional oracle parse p).2).known_args =
        c.known_args ++ [Arg.Positional p]) := by
  unfold Cli.check_positional Cli.next_uarg
  dsimp only
  split
  · rename_i s c2 heq
    injection heq with h1 h2
    subst h2
    split <;> (first | split | skip) <;> (first | split | skip) <;>
      exact ⟨rfl, rfl, by intro v h; first | rfl | cases h⟩
  · rename_i c2 heq
    injection heq with h1 h2
    subst h2
    exact ⟨rfl, rfl, by intro v h; rfl⟩

/-- Anatomy of `match_command`: the stream is the input stream or its
`next_uarg` image, the index is untouched, and on success the ledger is
untouched. -/
theorem match_command_anatomy (oracle : SuggestOracle) (c : Cli)
    (words : List Chars) :
    (((c.match_command oracle words).2).tokens = c.tokens ∨
      ((c.match_command oracle words).2).tokens = (next_uarg_toks c.tokens).2) ∧
    ((c.match_command oracle words).2).opt_store = c.opt_store ∧
    (∀ v, (c.match_command oracle words).1 = .ok v →
      ((c.match_command oracle words).2).known_args = c.known_args) := by
  unfold Cli.match_command Cli.next_uarg
  dsimp only
  split
  · exact ⟨Or.inl rfl, rfl, by intro v h; cases h⟩
  · split
    · rename_i c1 heq
      injection heq with h1 h2
      subst h2
      exact ⟨Or.inr rfl, rfl, by intro v h; cases h⟩
    · rename_i s c1 heq
      injection heq with h1 h2
      subst h2
      split <;> (first | split | skip) <;> (first | split | skip) <;> (first | split | skip) <;> (first | split | skip) <;>
        (first | split | skip) <;> (first | split | skip) <;>
        exact ⟨Or.inr rfl, rfl, by intro v h; first | rfl | cases h⟩

/-- C7 counterexample: querying an undeclared-in-input flag on the
stream of `["prog","x"]` succeeds yet leaves the occupied-slot count
unchanged, so a successful query need not strictly shrink the stream. -/
theorem c7_strict_shrink_counterexample :
    ((Cli.new.tokenize ["prog".toList, "x".toList]).check_flag
        { name := "debug".toList }).1 = .ok false ∧
    ((Cli.new.tokenize ["prog".toList, "x".toList]).check_flag
        { name := "debug".toList }).2.tokens =
      (Cli.new.tokenize ["prog".toList, "x".toList]).tokens ∧
    occupied ((Cli.new.tokenize ["prog".toList, "x".toList]).check_flag
        { name := "debug".toList }).2.tokens =
      occupied (Cli.new.tokenize ["prog".toList, "x".toList]).tokens ∧
    occupied (Cli.new.tokenize ["prog".toList, "x".toList]).tokens = 1 := by
  decide

/-- C7 as amended: every flag, option, positional or subcommand query
transitions the state monotonically — the occupied-slot count never
increases (strict decrease only when an occurrence is consumed), the
occurrence index only loses entries, and on success the ledger only
grows. -/
theorem c7_queries_shrink_monotonically :
    (∀ (c : Cli) (f : Flag),
      occupied ((c.check_flag_all f).2).tokens ≤ occupied c.tokens ∧
      ((c.check_flag_all f).2).opt_store.Sublist c.opt_store ∧
      (∀ v, (c.check_flag_all f).1 = .ok v →
        c.known_args <+: ((c.check_flag_all f).2).known_args)) ∧
    (∀ (τ : Type) (parse : Chars → Except Chars τ) (c : Cli) (o : Optional),
      occupied ((c.check_option_all parse o).2).tokens ≤ occupied c.tokens ∧
      ((c.check_option_all parse o).2).opt_store.Sublist c.opt_store ∧
      (∀ v, (c.check_option_all parse o).1 = .ok v →
        c.known_args <+: ((c.check_option_all parse o).2).known_args)) ∧
    (∀ (τ : Type) (oracle : SuggestOracle) (parse : Chars → Except Chars τ)
      (c : Cli) (p : Positional),
      occupied ((c.check_positional oracle parse p).2).tokens ≤ occupied c.tokens ∧
      ((c.check_positional oracle parse p).2).opt_store = c.opt_store ∧
      (∀ v, (c.check_positional oracle parse p).1 = .ok v →
        c.known_args <+: ((c.check_positional oracle parse p).2).known_args)) ∧
    (∀ (oracle : SuggestOracle) (c : Cli) (words : List Chars),
      occupied ((c.match_command oracle words).2).tokens ≤ occupied c.tokens ∧
      ((c.match_command oracle words).2).opt_store = c.opt_store ∧
      (∀ v, (c.match_command oracle words).1 = .ok v →
        c.known_args <+: ((c.match_command oracle words).2).known_args)) := by
  refine ⟨?_, ?_, ?_, ?_⟩
  · intro c f
    obtain ⟨⟨locs, htoks⟩, hstore, hknown⟩ := check_flag_all_anatomy c f
    exact ⟨htoks ▸ pull_flag_occupied locs c.tokens false, hstore,
      fun v hv => (hknown v hv).symm ▸ List.prefix_append _ _⟩
  · intro τ parse c o
    obtain ⟨⟨locs, htoks⟩, hstore, hknown⟩ := check_option_all_anatomy parse c o
    exact ⟨htoks ▸ pull_flag_occupied locs c.tokens true, hstore,
      fun v hv => (hknown v hv).symm ▸ List.prefix_append _ _⟩
  · intro τ oracle parse c p
    obtain ⟨htoks, hstore, hknown⟩ := check_positional_anatomy oracle parse c p
    exact ⟨htoks ▸ next_uarg_occupied c.tokens, hstore ▸ rfl,
      fun v hv => (hknown v hv).symm ▸ List.prefix_append _ _⟩
  · intro oracle c words
    obtain ⟨htoks, hstore, hknown⟩ := match_command_anatomy oracle c words
    refine ⟨?_, hstore ▸ rfl, fun v hv => (hknown v hv).symm ▸ List.prefix_refl _⟩
    rcases htoks with h | h
    · rw [h]
    · rw [h]
      exact next_uarg_occupied c.tokens

/-- C7 witness: consuming the one `--upgrade` occurrence drops the
occupied count from two to one and removes the index entry. -/
theorem c7_queries_shrink_monotonically_witness :
    occupied (((Cli.new.tokenize ["prog".toList, "--upgrade".toList, "x".toList]).check_flag_all
        { name := "upgrade".toList }).2).tokens ≤
      occupied (Cli.new.tokenize ["prog".toList, "--upgrade".toList, "x".toList]).tokens ∧
    (Cli.new.tokenize ["prog".toList, "--upgrade".toList, "x".toList]).known_args <+:
      (((Cli.new.tokenize ["prog".toList, "--upgrade".toList, "x".toList]).check_flag_all
          { name := "upgrade".toList }).2).known_args :=
  ⟨(c7_queries_shrink_monotonically.1
      (Cli.new.tokenize ["prog".toList, "--upgrade".toList, "x".toList])
      { name := "upgrade".toList }).1,
   (c7_queries_shrink_monotonically.1
      (Cli.new.tokenize ["prog".toList, "--upgrade".toList, "x".toList])
      { name := "upgrade".toList }).2.2 1 (by decide)⟩

/-! ### Help priority -/

theorem prioritize_help_of (c : Cli) (h : Help)
    (hask : c.asking_for_help = true) (hh : c.help = some h) :
    c.prioritize_help = .error (.Help (some h)) := by
  unfold Cli.prioritize_help
  rw [if_pos ⟨hask, by simp [Cli.is_help_enabled, hh]⟩, hh]

/-- Field-level form of `prioritize_help_of`, usable as a rewrite on
explicit engine states. -/
theorem prioritize_help_mk (tk : List (Option Token))
    (st : List (Tag × List Nat)) (ka : List Arg) (h : Help) (thr : Nat) :
    (Cli.mk tk st ka (some h) true thr).prioritize_help =
      .error (.Help (some h)) := by
  unfold Cli.prioritize_help
  rw [if_pos ⟨rfl, by simp [Cli.is_help_enabled]⟩]

/-- Lemma: `check_flag_all` never clears the sticky help state and never
touches the configured help text. -/
theorem check_flag_all_help_fields (c : Cli) (f : Flag) :
    ((c.check_flag_all f).2).help = c.help ∧
    (c.asking_for_help = true →
      ((c.check_flag_all f).2).asking_for_help = true) := by
  unfold Cli.check_flag_all Cli.take_flag_locs Cli.take_switch_locs Cli.pull_flag
  cases f.switch <;> dsimp only <;> split <;> (first | split | skip) <;>
    refine ⟨rfl, fun ha => ?_⟩ <;>
    (try exact ha) <;>
    (try (split <;> first | rfl | exact ha)) <;>
    exact ha

/-- C4 counterexample: with help configured and the help flag already
raised (the sticky state set through the engine's own `help` call),
`check_flag_n` still reports `ExceedingMaxCount` instead of the
distinguished help outcome. -/
theorem c4_help_priority_counterexample :
    ((Cli.new.tokenize
        ["prog".toList, "--help".toList, "--debug".toList, "--debug".toList]).set_help
      { flag := { name := "help".toList } }).2.asking_for_help = true ∧
    ((Cli.new.tokenize
        ["prog".toList, "--help".toList, "--debug".toList, "--debug".toList]).set_help
      { flag := { name := "help".toList } }).2.help =
      some { flag := { name := "help".toList } } ∧
    (((Cli.new.tokenize
        ["prog".toList, "--help".toList, "--debug".toList, "--debug".toList]).set_help
      { flag := { name := "help".toList } }).2.check_flag_n
        { name := "debug".toList } 1).1 =
      .error (.ExceedingMaxCount 1 2 (Arg.Flag { name := "debug".toList })) := by
  decide

/-- C4 as amended: with help enabled and the sticky asking-for-help
state set, every error produced by the queries whose error
constructions are guarded by the help check (`check_flag`,
`check_flag_all`, `check_option`, `check_option_all`,
`check_positional`, `is_empty`) is the distinguished `Help` outcome;
but `check_flag_n`/`check_option_n` count violations
(`ExceedingMaxCount`), `match_command` spelling suggestions and
`check_remainder` errors are returned unchanged. -/
theorem c4_help_priority_amended (c : Cli) (h : Help)
    (hask : c.asking_for_help = true) (hh : c.help = some h) :
    (∀ f : Flag, help_or_ok ((c.check_flag_all f).1)) ∧
    (∀ f : Flag, help_or_ok ((c.check_flag f).1)) ∧
    (∀ (τ : Type) (parse : Chars → Except Chars τ) (o : Optional),
      help_or_ok ((c.check_option_all parse o).1)) ∧
    (∀ (τ : Type) (parse : Chars → Except Chars τ) (o : Optional),
      help_or_ok ((c.check_option parse o).1)) ∧
    (∀ (τ : Type) (oracle : SuggestOracle) (parse : Chars → Except Chars τ)
      (p : Positional), help_or_ok ((c.check_positional oracle parse p).1)) ∧
    (∀ oracle : SuggestOracle, c.is_empty oracle = .error (.Help (some h))) := by
  have hall : ∀ f : Flag, help_or_ok ((c.check_flag_all f).1) := by
    intro f
    unfold Cli.check_flag_all Cli.take_flag_locs Cli.take_switch_locs Cli.pull_flag
    cases f.switch <;> dsimp only <;>
      simp only [prioritize_help_mk, hask, hh] <;> split <;>
      simp [help_or_ok, is_help_err]
  refine ⟨hall, ?_, ?_, ?_, ?_, ?_⟩
  · intro f
    have hflds := check_flag_all_help_fields c f
    have h1 := hall f
    unfold Cli.check_flag
    split
    · rename_i e c' heq
      rw [heq] at h1
      exact h1
    · rename_i occ c' heq
      have hh' : c'.help = some h := by
        have := hflds.1
        rw [heq] at this
        rw [this, hh]
      have hask' : c'.asking_for_help = true := by
        have := hflds.2 hask
        rw [heq] at this
        exact this
      split
      · rw [prioritize_help_of c' h hask' hh']
        simp [help_or_ok, is_help_err]
      · simp [help_or_ok]
  · intro τ parse o
    unfold Cli.check_option_all Cli.take_flag_locs Cli.take_switch_locs Cli.pull_flag
    cases o.flag.switch <;> dsimp only <;>
      simp only [prioritize_help_mk, hask, hh] <;> split <;> (first | split | skip) <;>
      simp [help_or_ok, is_help_err]
  · intro τ parse o
    unfold Cli.check_option Cli.take_flag_locs Cli.take_switch_locs Cli.pull_flag
    cases o.flag.switch <;> dsimp only <;>
      simp only [prioritize_help_mk, hask, hh] <;> split <;> (first | split | skip) <;>
      (first | split | skip) <;> simp [help_or_ok, is_help_err]
  · intro τ oracle parse p
    unfold Cli.check_positional Cli.next_uarg
    dsimp only
    split
    · rename_i s c2 heq
      injection heq with h1 h2
      subst h2
      split
      · simp [help_or_ok]
      · simp only [prioritize_help_mk, hask, hh]
        simp [help_or_ok, is_help_err]
    · rename_i c2 heq
      injection heq with h1 h2
      subst h2
      simp [help_or_ok]
  · intro oracle
    unfold Cli.is_empty
    rw [prioritize_help_of c h hask hh]

/-- C4 witness: the reachable sticky-help state from the
counterexample input turns the duplicate-flag error of `check_flag`
into the help outcome. -/
theorem c4_help_priority_amended_witness :
    help_or_ok
      ((((Cli.new.tokenize
          ["prog".toList, "--help".toList, "--debug".toList, "--debug".toList]).set_help
        { flag := { name := "help".toList } }).2.check_flag
          { name := "debug".toList }).1) :=
  (c4_help_priority_amended
    ((Cli.new.tokenize
        ["prog".toList, "--help".toList, "--debug".toList, "--debug".toList]).set_help
      { flag := { name := "help".toList } }).2
    { flag := { name := "help".toList } } (by decide) (by decide)).2.1
    { name := "debug".toList }

/-- C6 witness: a state whose stream is an unconsumed flag slot, the
terminator, and two ignored words drains to those two words. -/
theorem c6_check_remainder_semantics_witness :
    (Cli.new.tokenize
        ["prog".toList, "--x".toList, "--".toList, "a".toList, "b".toList]).check_remainder =
      (.ok ["a".toList, "b".toList],
       { Cli.new.tokenize
          ["prog".toList, "--x".toList, "--".toList, "a".toList, "b".toList] with
         tokens := [some (Token.Flag 0)] ++ none :: List.replicate 2 none }) :=
  c6_check_remainder_semantics.1
    (Cli.new.tokenize ["prog".toList, "--x".toList, "--".toList, "a".toList, "b".toList])
    [some (Token.Flag 0)] 1 2 ["a".toList, "b".toList] (by decide) (by decide)

/-! ### Misplacement detection in `match_command` -/

theorem prioritize_help_not_asking_mk (tk : List (Option Token))
    (st : List (Tag × List Nat)) (ka : List Arg) (hlp : Option Help)
    (thr : Nat) :
    (Cli.mk tk st ka hlp false thr).prioritize_help = .ok () := by
  unfold Cli.prioritize_help
  rw [if_neg]
  simp

theorem ffl_fold_lt (store : List (Tag × List Nat)) (bp : Nat) :
    ∀ (acc : Option (Chars × Nat)), (∀ k v, acc = some (k, v) → v < bp) →
      ∀ key val, store.foldl (ffl_step bp) acc = some (key, val) → val < bp := by
  induction store with
  | nil =>
    intro acc hacc key val h
    exact hacc key val h
  | cons p rest ih =>
    intro acc hacc key val h
    refine ih (ffl_step bp acc p) ?_ key val h
    intro k v hv
    unfold ffl_step at hv
    dsimp only at hv
    split at hv <;>
      first
      | exact hacc k v hv
      | (rename_i hcond
         injection hv with hv
         injection hv with hv1 hv2
         subst hv2
         exact hcond.1)

/-- A stray slot found by `find_first_flag_left` lies strictly before
the breakpoint. -/
theorem find_ffl_lt {store : List (Tag × List Nat)} {bp : Nat}
    {key : Chars} {val : Nat} (h : find_ffl store bp = some (key, val)) :
    val < bp :=
  ffl_fold_lt store bp none (fun _ _ hv => Option.noConfusion hv) key val h

theorem ffl_fold_mem (store : List (Tag × List Nat)) (bp : Nat) :
    ∀ (acc : Option (Chars × Nat)) (key : Chars) (val : Nat),
      store.foldl (ffl_step bp) acc = some (key, val) →
      acc = some (key, val) ∨
        ∃ p ∈ store, key = p.1.inner ∧ val = p.2.headI := by
  induction store with
  | nil =>
    intro acc key val h
    exact Or.inl h
  | cons p rest ih =>
    intro acc key val h
    rcases ih (ffl_step bp acc p) key val h with h' | ⟨q, hq, he⟩
    · unfold ffl_step at h'
      dsimp only at h'
      split at h' <;>
        first
        | exact Or.inl h'
        | (injection h' with h'
           injection h' with h1 h2
           exact Or.inr ⟨p, List.mem_cons_self _ _, h1.symm, h2.symm⟩)
    · exact Or.inr ⟨q, List.mem_cons_of_mem _ hq, he⟩

/-- A stray entry found by `find_first_flag_left` is the head slot of
some occurrence-index entry. -/
theorem find_ffl_mem {store : List (Tag × List Nat)} {bp : Nat}
    {key : Chars} {val : Nat} (h : find_ffl store bp = some (key, val)) :
    ∃ p ∈ store, key = p.1.inner ∧ val = p.2.headI := by
  rcases ffl_fold_mem store bp none key val h with h' | h'
  · cases h'
  · exact h'

/-- C3 counterexample: on `["prog","-ab","cmd"]`, after the declared
flag with short form `a` consumes its occurrence, the unconsumed
switch `b` occupies slot 1 — strictly before the subcommand word `cmd`
at slot 2 (original index 1) — yet `match_command` accepts `cmd`
instead of failing with `OutOfContextArgSuggest`, because the code
compares the stray's slot index 1 against the word's original argument
index 1. -/
theorem c3_misplacement_counterexample :
    (((Cli.new.tokenize ["prog".toList, "-ab".toList, "cmd".toList]).check_flag_all
        { name := "alpha".toList, switch := some 'a' }).1 = .ok 1) ∧
    store_get (((Cli.new.tokenize
        ["prog".toList, "-ab".toList, "cmd".toList]).check_flag_all
        { name := "alpha".toList, switch := some 'a' }).2).opt_store
      (Tag.Switch ['b']) = some [1] ∧
    (((Cli.new.tokenize ["prog".toList, "-ab".toList, "cmd".toList]).check_flag_all
        { name := "alpha".toList, switch := some 'a' }).2).tokens.get? 1 =
      some (some (Token.Switch 0 'b')) ∧
    (((Cli.new.tokenize ["prog".toList, "-ab".toList, "cmd".toList]).check_flag_all
        { name := "alpha".toList, switch := some 'a' }).2).tokens.get? 2 =
      some (some (Token.UnattachedArgument 1 "cmd".toList)) ∧
    ((((Cli.new.tokenize ["prog".toList, "-ab".toList, "cmd".toList]).check_flag_all
        { name := "alpha".toList, switch := some 'a' }).2).match_command no_oracle
      ["cmd".toList]).1 = .ok "cmd".toList := by
  decide

/-- C3 as amended: when `match_command` claims a word that is in the
word list (threshold 0, help not being asked for), the misplacement
scan compares each index entry's first slot index against the claimed
word's original argument index `i`: it accepts the word when no entry
has a slot strictly below `i`, and fails with `OutOfContextArgSuggest`
naming the earliest such entry (with its `-` or `--` spelling) when
one exists — occurrences whose slot index is at least `i` are not
reported even if they precede the word in the stream. -/
theorem c3_misplacement_amended (oracle : SuggestOracle) (c : Cli)
    (words : List Chars) (i : Nat) (s : Chars) (toks' : List (Option Token))
    (hthr : c.threshold = 0) (hask : c.asking_for_help = false)
    (hfirst : first_uarg_index c.tokens = some i)
    (hnext : next_uarg_toks c.tokens = (some s, toks'))
    (hmem : s ∈ words) :
    (find_ffl c.opt_store i = none →
      (c.match_command oracle words).1 = .ok s) ∧
    (∀ (key : Chars) (val : Nat) (t : Token),
      find_ffl c.opt_store i = some (key, val) →
      toks'.get? val = some (some t) → flag_like t = true →
      (c.match_command oracle words).1 =
        .error (.OutOfContextArgSuggest (tok_pfx t ++ key) s c.help)) := by
  have hcont : words.contains s = true := List.elem_eq_true_of_mem hmem
  constructor
  · intro hffl
    unfold Cli.match_command Cli.next_uarg
    rw [hfirst, hnext]
    dsimp only
    unfold Cli.capture_bad_flag Cli.find_first_flag_left
    dsimp only
    rw [hffl]
    dsimp only
    rw [if_pos hcont]
  · intro key val t hffl htok hft
    have hlt : val < i := find_ffl_lt hffl
    unfold Cli.match_command Cli.next_uarg
    rw [hfirst, hnext]
    dsimp only
    unfold Cli.capture_bad_flag Cli.find_first_flag_left
    dsimp only
    rw [hffl]
    dsimp only
    simp only [hask, prioritize_help_not_asking_mk]
    rw [htok]
    cases t <;> simp [flag_like] at hft <;>
      simp [hcont, hmem, hthr, hlt, tok_pfx, hask,
        prioritize_help_not_asking_mk]

/-- C3 witness: on the spec's own example `["prog","--flag","cmd","arg"]`
with word list `["cmd"]`, matching fails with the out-of-context error
naming `--flag` and `cmd`. -/
theorem c3_misplacement_amended_witness :
    ((Cli.new.tokenize
        ["prog".toList, "--flag".toList, "cmd".toList, "arg".toList]).match_command
      no_oracle ["cmd".toList]).1 =
      .error (.OutOfContextArgSuggest (tok_pfx (Token.Flag 0) ++ "flag".toList)
        "cmd".toList
        (Cli.new.tokenize
          ["prog".toList, "--flag".toList, "cmd".toList, "arg".toList]).help) :=
  (c3_misplacement_amended no_oracle
    (Cli.new.tokenize ["prog".toList, "--flag".toList, "cmd".toList, "arg".toList])
    ["cmd".toList] 1 "cmd".toList
    [some (Token.Flag 0), none, some (Token.UnattachedArgument 2 "arg".toList)]
    (by decide) (by decide) (by decide) (by decide) (by decide)).2
    "flag".toList 0 (Token.Flag 0) (by decide) (by decide) (by decide)

/-! ### Preservation of the occurrence-index invariant by every query -/

theorem SlotOk.of_get_eq {toks toks' : List (Option Token)} {k : Nat}
    (he : toks'.get? k = toks.get? k) (h : SlotOk toks k) : SlotOk toks' k := by
  obtain ⟨t, ht, hft⟩ := h
  exact ⟨t, by rw [he, ht], hft⟩

/-- A store whose slots are all still flag-occupied stays invariant
under any stream change that fixes flag-occupied slots. -/
theorem StoreInv.preserve_get {s : List (Tag × List Nat)}
    {toks toks' : List (Option Token)} (hinv : StoreInv s toks)
    (h : ∀ k, SlotOk toks k → toks'.get? k = toks.get? k) : StoreInv s toks' := by
  refine ⟨hinv.1, hinv.2.1, fun p hp => ?_⟩
  obtain ⟨h1, h2, h3⟩ := hinv.2.2 p hp
  exact ⟨h1, h2, fun l hl => (h3 l hl).of_get_eq (h l (h3 l hl))⟩

/-- Lemma: `pull_step` never clears a slot still holding a flag-form token. -/
theorem pull_step_get_preserve (t1 : List (Option Token)) (loc : Nat) (b : Bool)
    (k : Nat) (hslot : SlotOk t1 k) :
    (pull_step t1 loc b).2.get? k = t1.get? k := by
  unfold pull_step
  split
  · rename_i i s heq
    refine List.get?_set_ne _ _ (fun he => ?_)
    obtain ⟨t, ht, hft⟩ := hslot
    rw [he] at heq
    rw [heq] at ht
    injection ht with ht
    injection ht with ht
    rw [← ht] at hft
    simp [flag_like] at hft
  · rename_i i s heq
    split
    · refine List.get?_set_ne _ _ (fun he => ?_)
      obtain ⟨t, ht, hft⟩ := hslot
      rw [he] at heq
      rw [heq] at ht
      injection ht with ht
      injection ht with ht
      rw [← ht] at hft
      simp [flag_like] at hft
    · rfl
  · rfl

/-- Lemma: `pull_flag` leaves every flag-occupied slot outside its location
list untouched. -/
theorem pull_flag_preserve (locs : List Nat) :
    ∀ (toks : List (Option Token)) (b : Bool) (k : Nat),
      k ∉ locs → SlotOk toks k →
      (pull_flag_toks toks b locs).2.get? k = toks.get? k := by
  induction locs with
  | nil => intro toks b k _ _; rfl
  | cons loc rest ih =>
    intro toks b k hk hslot
    simp only [List.mem_cons, not_or] at hk
    have h1 : (toks.set loc none).get? k = toks.get? k :=
      List.get?_set_ne _ _ (fun he => hk.1 (by rw [he]))
    have hs1 : SlotOk (toks.set loc none) k := hslot.of_get_eq h1
    have h2 := pull_step_get_preserve (toks.set loc none) loc b k hs1
    have hs2 : SlotOk (pull_step (toks.set loc none) loc b).2 k :=
      hs1.of_get_eq h2
    show (pull_flag_toks (pull_step (toks.set loc none) loc b).2 b rest).2.get? k = _
    rw [ih _ b k hk.2 hs2, h2, h1]

theorem store_all_locs_sublist {s' s : List (Tag × List Nat)}
    (h : s'.Sublist s) :
    (store_all_locs s').Sublist (store_all_locs s) := by
  induction h with
  | slnil => exact List.Sublist.refl _
  | cons a h ih =>
    simpa [store_all_locs] using ih.trans (List.sublist_append_right _ _)
  | cons₂ a h ih =>
    simpa [store_all_locs] using
      List.Sublist.append (List.Sublist.refl a.2) ih

/-- Slots returned by `store_remove` are in the original index. -/
theorem store_remove_fst_subset {s : List (Tag × List Nat)} {tg : Tag}
    {l : Nat} (hl : l ∈ (store_remove s tg).1.getD []) :
    l ∈ store_all_locs s := by
  rw [store_remove_fst] at hl
  cases hg : store_get s tg with
  | none => rw [hg] at hl; cases hl
  | some v =>
    rw [hg] at hl
    exact mem_store_all_locs.2 ⟨(tg, v), store_get_mem hg, hl⟩

/-- In a duplicate-free index, the slots of the removed entry are
disjoint from the slots of the remaining entries. -/
theorem store_remove_locs_disjoint {s : List (Tag × List Nat)} {tg : Tag}
    (hnd : (store_all_locs s).Nodup) :
    ∀ l ∈ store_all_locs (store_remove s tg).2,
      l ∉ (store_remove s tg).1.getD [] := by
  induction s with
  | nil => intro l hl; cases hl
  | cons p rest ih =>
    obtain ⟨k, v⟩ := p
    rw [store_all_locs_cons, List.nodup_append] at hnd
    by_cases hk : k = tg
    · subst hk
      simp only [store_remove, if_pos rfl]
      intro l hl hmem
      exact hnd.2.2 hmem hl
    · simp only [store_remove, if_neg hk]
      intro l hl
      rw [store_all_locs_cons] at hl
      rcases List.mem_append.1 hl with hl | hl
      · intro hmem
        exact hnd.2.2 hl (store_remove_fst_subset hmem)
      · exact ih hnd.2.1 l hl

/-- One destructive take followed by its `pull_flag` preserves the
occurrence-index invariant. -/
theorem store_inv_take_pull_one {s : List (Tag × List Nat)}
    {toks : List (Option Token)} (hinv : StoreInv s toks) (tg : Tag) (b : Bool) :
    StoreInv (store_remove s tg).2
      (pull_flag_toks toks b ((store_remove s tg).1.getD [])).2 := by
  have hsub := store_remove_sublist s tg
  have hkeys : (store_keys (store_remove s tg).2).Nodup :=
    store_keys_remove_nodup s tg hinv.1
  have hlocs : (store_all_locs (store_remove s tg).2).Nodup :=
    (store_all_locs_sublist hsub).nodup hinv.2.1
  refine ⟨hkeys, hlocs, fun p hp => ?_⟩
  have hps : p ∈ s := hsub.mem hp
  obtain ⟨h1, h2, h3⟩ := hinv.2.2 p hps
  refine ⟨h1, h2, fun l hl => ?_⟩
  have hnot : l ∉ (store_remove s tg).1.getD [] :=
    store_remove_locs_disjoint hinv.2.1 l (mem_store_all_locs.2 ⟨p, hp, hl⟩)
  exact (h3 l hl).of_get_eq (pull_flag_preserve _ toks b l hnot (h3 l hl))

theorem pull_flag_toks_append (xs ys : List Nat) :
    ∀ (toks : List (Option Token)) (b : Bool),
      (pull_flag_toks toks b (xs ++ ys)).2 =
        (pull_flag_toks (pull_flag_toks toks b xs).2 b ys).2 := by
  induction xs with
  | nil => intro toks b; rfl
  | cons loc rest ih =>
    intro toks b
    show (pull_flag_toks (pull_step (toks.set loc none) loc b).2 b (rest ++ ys)).2 = _
    rw [ih]
    rfl

/-- Taking any list of tags and pulling all their slots preserves the
occurrence-index invariant. -/
theorem take_tags_pull_inv (tags : List Tag) :
    ∀ (s : List (Tag × List Nat)) (toks : List (Option Token)) (b : Bool),
      StoreInv s toks →
      StoreInv (take_tags s tags).2
        (pull_flag_toks toks b (take_tags s tags).1).2 := by
  induction tags with
  | nil => intro s toks b hinv; exact hinv
  | cons tg rest ih =>
    intro s toks b hinv
    show StoreInv (take_tags (store_remove s tg).2 rest).2
      (pull_flag_toks toks b
        ((store_remove s tg).1.getD [] ++ (take_tags (store_remove s tg).2 rest).1)).2
    rw [pull_flag_toks_append]
    exact ih _ _ b (store_inv_take_pull_one hinv tg b)

theorem check_flag_all_toks_store (c : Cli) (f : Flag) :
    ((c.check_flag_all f).2).opt_store = (take_tags c.opt_store (flag_tags f)).2 ∧
    ((c.check_flag_all f).2).tokens =
      (pull_flag_toks c.tokens false (take_tags c.opt_store (flag_tags f)).1).2 := by
  unfold Cli.check_flag_all Cli.take_flag_locs Cli.take_switch_locs Cli.pull_flag
  cases hs : f.switch <;> simp only [flag_tags, hs] <;> (first | dsimp only | skip) <;>
    split <;> (first | split | skip) <;> constructor <;> simp [take_tags]

theorem check_option_all_toks_store {τ : Type} (parse : Chars → Except Chars τ)
    (c : Cli) (o : Optional) :
    ((c.check_option_all parse o).2).opt_store =
      (take_tags c.opt_store (flag_tags o.flag)).2 ∧
    ((c.check_option_all parse o).2).tokens =
      (pull_flag_toks c.tokens true (take_tags c.opt_store (flag_tags o.flag)).1).2 := by
  unfold Cli.check_option_all Cli.take_flag_locs Cli.take_switch_locs Cli.pull_flag
  cases hs : o.flag.switch <;> simp only [flag_tags, hs] <;> (first | dsimp only | skip) <;>
    split <;> (first | split | skip) <;> (first | split | skip) <;> (first | split | skip) <;>
    constructor <;> simp [take_tags]

theorem check_option_toks_store {τ : Type} (parse : Chars → Except Chars τ)
    (c : Cli) (o : Optional) :
    ((c.check_option parse o).2).opt_store =
      (take_tags c.opt_store (flag_tags o.flag)).2 ∧
    ((c.check_option parse o).2).tokens =
      (pull_flag_toks c.tokens true (take_tags c.opt_store (flag_tags o.flag)).1).2 := by
  unfold Cli.check_option Cli.take_flag_locs Cli.take_switch_locs Cli.pull_flag
  cases hs : o.flag.switch <;> simp only [flag_tags, hs] <;> (first | dsimp only | skip) <;>
    split <;> (first | split | skip) <;> (first | split | skip) <;> (first | split | skip) <;>
    constructor <;> simp [take_tags]

theorem check_flag_all_inv {c : Cli} (f : Flag) (hinv : Inv c) :
    Inv (c.check_flag_all f).2 := by
  obtain ⟨hst, htk⟩ := check_flag_all_toks_store c f
  unfold Inv
  rw [hst, htk]
  exact take_tags_pull_inv _ _ _ _ hinv

theorem check_option_all_inv {τ : Type} {parse : Chars → Except Chars τ}
    {c : Cli} (o : Optional) (hinv : Inv c) :
    Inv (c.check_option_all parse o).2 := by
  obtain ⟨hst, htk⟩ := check_option_all_toks_store parse c o
  unfold Inv
  rw [hst, htk]
  exact take_tags_pull_inv _ _ _ _ hinv

theorem check_option_inv {τ : Type} {parse : Chars → Except Chars τ}
    {c : Cli} (o : Optional) (hinv : Inv c) :
    Inv (c.check_option parse o).2 := by
  obtain ⟨hst, htk⟩ := check_option_toks_store parse c o
  unfold Inv
  rw [hst, htk]
  exact take_tags_pull_inv _ _ _ _ hinv

theorem check_flag_wrap (c : Cli) (f : Flag) :
    ((c.check_flag f).2).opt_store = ((c.check_flag_all f).2).opt_store ∧
    ((c.check_flag f).2).tokens = ((c.check_flag_all f).2).tokens := by
  unfold Cli.check_flag
  split <;> rename_i heq <;> rw [heq]
  · exact ⟨rfl, rfl⟩
  · split <;> (first | split | skip) <;> exact ⟨rfl, rfl⟩

theorem check_flag_n_wrap (c : Cli) (f : Flag) (n : Nat) :
    ((c.check_flag_n f n).2).opt_store = ((c.check_flag_all f).2).opt_store ∧
    ((c.check_flag_n f n).2).tokens = ((c.check_flag_all f).2).tokens := by
  unfold Cli.check_flag_n
  split <;> rename_i heq <;> rw [heq]
  · exact ⟨rfl, rfl⟩
  · split <;> exact ⟨rfl, rfl⟩

theorem check_option_n_wrap {τ : Type} (parse : Chars → Except Chars τ)
    (c : Cli) (o : Optional) (n : Nat) :
    ((c.check_option_n parse o n).2).opt_store =
      ((c.check_option_all parse o).2).opt_store ∧
    ((c.check_option_n parse o n).2).tokens =
      ((c.check_option_all parse o).2).tokens := by
  unfold Cli.check_option_n
  split <;> rename_i heq <;> rw [heq]
  · exact ⟨rfl, rfl⟩
  · split <;> exact ⟨rfl, rfl⟩
  · exact ⟨rfl, rfl⟩

theorem check_flag_inv {c : Cli} (f : Flag) (hinv : Inv c) :
    Inv (c.check_flag f).2 := by
  obtain ⟨h1, h2⟩ := check_flag_wrap c f
  unfold Inv
  rw [h1, h2]
  exact check_flag_all_inv f hinv

theorem check_flag_n_inv {c : Cli} (f : Flag) (n : Nat) (hinv : Inv c) :
    Inv (c.check_flag_n f n).2 := by
  obtain ⟨h1, h2⟩ := check_flag_n_wrap c f n
  unfold Inv
  rw [h1, h2]
  exact check_flag_all_inv f hinv

theorem check_option_n_inv {τ : Type} {parse : Chars → Except Chars τ}
    {c : Cli} (o : Optional) (n : Nat) (hinv : Inv c) :
    Inv (c.check_option_n parse o n).2 := by
  obtain ⟨h1, h2⟩ := check_option_n_wrap parse c o n
  unfold Inv
  rw [h1, h2]
  exact check_option_all_inv o hinv

theorem next_uarg_get_preserve (toks : List (Option Token)) :
    ∀ k, SlotOk toks k → (next_uarg_toks toks).2.get? k = toks.get? k := by
  induction toks with
  | nil => intro k _; rfl
  | cons t rest ih =>
    intro k hk
    cases t with
    | none =>
      cases k with
      | zero => rfl
      | succ k' => exact ih k' hk
    | some tok =>
      cases tok with
      | UnattachedArgument i s =>
        cases k with
        | zero =>
          obtain ⟨t', ht', hft⟩ := hk
          injection ht' with ht'
          injection ht' with ht'
          rw [← ht'] at hft
          simp [flag_like] at hft
        | succ k' => rfl
      | Terminator i => rfl
      | AttachedArgument i s =>
        cases k with
        | zero => rfl
        | succ k' => exact ih k' hk
      | Flag i =>
        cases k with
        | zero => rfl
        | succ k' => exact ih k' hk
      | Switch i ch =>
        cases k with
        | zero => rfl
        | succ k' => exact ih k' hk
      | EmptySwitch i =>
        cases k with
        | zero => rfl
        | succ k' => exact ih k' hk
      | Ignore i s =>
        cases k with
        | zero => rfl
        | succ k' => exact ih k' hk

theorem check_positional_inv {τ : Type} {oracle : SuggestOracle}
    {parse : Chars → Except Chars τ} {c : Cli} (p : Positional) (hinv : Inv c) :
    Inv (c.check_positional oracle parse p).2 := by
  obtain ⟨htk, hst, _⟩ := check_positional_anatomy oracle parse c p
  unfold Inv
  rw [htk, hst]
  exact hinv.preserve_get (next_uarg_get_preserve c.tokens)

theorem require_positional_wrap {τ : Type} (oracle : SuggestOracle)
    (parse : Chars → Except Chars τ) (c : Cli) (p : Positional) :
    ((c.require_positional oracle parse p).2).opt_store =
      ((c.check_positional oracle parse p).2).opt_store ∧
    ((c.require_positional oracle parse p).2).tokens =
      ((c.check_positional oracle parse p).2).tokens := by
  unfold Cli.require_positional
  split <;> rename_i heq <;> rw [heq] <;>
    first
    | exact ⟨rfl, rfl⟩
    | (split <;> (first | split | skip) <;> exact ⟨rfl, rfl⟩)

theorem require_positional_inv {τ : Type} {oracle : SuggestOracle}
    {parse : Chars → Except Chars τ} {c : Cli} (p : Positional) (hinv : Inv c) :
    Inv (c.require_positional oracle parse p).2 := by
  obtain ⟨h1, h2⟩ := require_positional_wrap oracle parse c p
  unfold Inv
  rw [h1, h2]
  exact check_positional_inv p hinv

theorem match_command_inv {oracle : SuggestOracle} {c : Cli}
    (words : List Chars) (hinv : Inv c) :
    Inv (c.match_command oracle words).2 := by
  obtain ⟨htk, hst, _⟩ := match_command_anatomy oracle c words
  unfold Inv
  rw [hst]
  rcases htk with h | h <;> rw [h]
  · exact hinv
  · exact hinv.preserve_get (next_uarg_get_preserve c.tokens)

theorem drain_rem_get_preserve (toks : List (Option Token)) :
    ∀ k, SlotOk toks k → (drain_rem toks).2.get? k = toks.get? k := by
  induction toks with
  | nil => intro k _; rfl
  | cons t rest ih =>
    intro k hk
    cases t with
    | none =>
      cases k with
      | zero => rfl
      | succ k' => rfl
    | some tok =>
      cases tok with
      | Ignore i s =>
        cases k with
        | zero =>
          obtain ⟨t', ht', hft⟩ := hk
          injection ht' with ht'
          injection ht' with ht'
          rw [← ht'] at hft
          simp [flag_like] at hft
        | succ k' => exact ih k' hk
      | Terminator i =>
        cases k with
        | zero =>
          obtain ⟨t', ht', hft⟩ := hk
          injection ht' with ht'
          injection ht' with ht'
          rw [← ht'] at hft
          simp [flag_like] at hft
        | succ k' => exact ih k' hk
      | AttachedArgument i s =>
        cases k with
        | zero =>
          obtain ⟨t', ht', hft⟩ := hk
          injection ht' with ht'
          injection ht' with ht'
          rw [← ht'] at hft
          simp [flag_like] at hft
        | succ k' => rfl
      | UnattachedArgument i s =>
        cases k with
        | zero => rfl
        | succ k' => rfl
      | Flag i =>
        cases k with
        | zero => rfl
        | succ k' => rfl
      | Switch i ch =>
        cases k with
        | zero => rfl
        | succ k' => rfl
      | EmptySwitch i =>
        cases k with
        | zero => rfl
        | succ k' => rfl

theorem skip_rem_get_preserve (toks : List (Option Token)) :
    ∀ k, SlotOk toks k → (skip_rem toks).2.get? k = toks.get? k := by
  induction toks with
  | nil => intro k _; rfl
  | cons t rest ih =>
    intro k hk
    cases t with
    | none =>
      cases k with
      | zero => rfl
      | succ k' => exact ih k' hk
    | some tok =>
      cases tok with
      | Terminator i =>
        cases k with
        | zero =>
          obtain ⟨t', ht', hft⟩ := hk
          injection ht' with ht'
          injection ht' with ht'
          rw [← ht'] at hft
          simp [flag_like] at hft
        | succ k' => exact drain_rem_get_preserve rest k' hk
      | UnattachedArgument i s =>
        cases k with
        | zero => rfl
        | succ k' => exact ih k' hk
      | AttachedArgument i s =>
        cases k with
        | zero => rfl
        | succ k' => exact ih k' hk
      | Flag i =>
        cases k with
        | zero => rfl
        | succ k' => exact ih k' hk
      | Switch i ch =>
        cases k with
        | zero => rfl
        | succ k' => exact ih k' hk
      | EmptySwitch i =>
        cases k with
        | zero => rfl
        | succ k' => exact ih k' hk
      | Ignore i s =>
        cases k with
        | zero => rfl
        | succ k' => exact ih k' hk

theorem check_remainder_inv {c : Cli} (hinv : Inv c) :
    Inv (c.check_remainder).2 :=
  hinv.preserve_get (skip_rem_get_preserve c.tokens)

theorem check_command_probe_inv {c : Cli} (p : Positional) (hinv : Inv c) :
    Inv (c.check_command_probe p).2 := hinv

theorem set_threshold_inv {c : Cli} (cost : Nat) (hinv : Inv c) :
    Inv (c.set_threshold cost) := hinv

theorem set_help_inv {c : Cli} (h : Help) (hinv : Inv c) :
    Inv (c.set_help h).2 := by
  unfold Cli.set_help
  dsimp only
  split
  · split
    · rename_i b c2 heq
      have h2 : Inv (({ c with help := some h } : Cli).check_flag h.flag).2 :=
        check_flag_inv h.flag hinv
      rw [heq] at h2
      exact h2
    · rename_i e c2 heq
      have h2 : Inv (({ c with help := some h } : Cli).check_flag h.flag).2 :=
        check_flag_inv h.flag hinv
      rw [heq] at h2
      exact h2
  · exact hinv

/-- Under the occurrence-index invariant, `capture_bad_flag` never
reaches its panic arms. -/
theorem capture_no_panic {c : Cli} (hinv : Inv c) (oracle : SuggestOracle)
    (i : Nat) : is_panic (c.capture_bad_flag oracle i) = false := by
  unfold Cli.capture_bad_flag Cli.find_first_flag_left
  cases hf : find_ffl c.opt_store i with
  | none => rfl
  | some kv =>
    obtain ⟨key, val⟩ := kv
    obtain ⟨p, hp, hkey, hval⟩ := find_ffl_mem hf
    obtain ⟨hne, hch, hslots⟩ := hinv.2.2 p hp
    have hhead : p.2.headI ∈ p.2 := by
      cases hpp : p.2 with
      | nil => exact absurd hpp hne
      | cons x xs => simp [hpp]
    have hslot : SlotOk c.tokens val := hval ▸ hslots _ hhead
    obtain ⟨t, ht, hft⟩ := hslot
    dsimp only
    split
    · rename_i e heq
      unfold Cli.prioritize_help at heq
      split at heq
      · injection heq with heq
        rw [← heq]
        rfl
      · cases heq
    · rw [ht]
      dsimp only
      cases t <;> simp [flag_like] at hft <;> dsimp only
      · split <;> rfl
      · rfl
      · rfl

/-- C9.  Occurrence-index slot invariant: in every reachable engine
state the index has unique keys, globally distinct slots, and every
listed slot holds a still-occupied `Flag`, `Switch` or `EmptySwitch`
token in strictly increasing order per tag; consequently the
unreachable-token panics in `capture_bad_flag` can never fire. -/
theorem c9_occurrence_index_invariant :
    ∀ c : Cli, Reachable c →
      StoreInv c.opt_store c.tokens ∧
      ∀ (oracle : SuggestOracle) (i : Nat),
        is_panic (c.capture_bad_flag oracle i) = false := by
  have hinv : ∀ c : Cli, Reachable c → Inv c := by
    intro c hr
    induction hr with
    | tokenized args => exact tokenize_store_inv _ _
    | set_threshold c cost _ ih => exact set_threshold_inv cost ih
    | set_help c h _ ih => exact set_help_inv h ih
    | check_flag_all c f _ ih => exact check_flag_all_inv f ih
    | check_flag c f _ ih => exact check_flag_inv f ih
    | check_flag_n c f n _ ih => exact check_flag_n_inv f n ih
    | check_option_all parse c o _ ih => exact check_option_all_inv o ih
    | check_option parse c o _ ih => exact check_option_inv o ih
    | check_option_n parse c o n _ ih => exact check_option_n_inv o n ih
    | check_positional oracle parse c p _ ih => exact check_positional_inv p ih
    | require_positional oracle parse c p _ ih =>
      exact require_positional_inv p ih
    | check_command_probe c p _ ih => exact check_command_probe_inv p ih
    | match_command oracle c words _ ih => exact match_command_inv words ih
    | check_remainder c _ ih => exact check_remainder_inv ih
  intro c hr
  exact ⟨hinv c hr, fun oracle i => capture_no_panic (hinv c hr) oracle i⟩

/-- C9 witness: a freshly tokenized engine with a pending flag, switch
bundle and stray word satisfies the invariant and its misplacement
scan does not panic. -/
theorem c9_occurrence_index_invariant_witness :
    is_panic ((Cli.new.tokenize
        ["prog".toList, "--help".toList, "-ab".toList, "word".toList]).capture_bad_flag
      no_oracle 4) = false :=
  (c9_occurrence_index_invariant
    (Cli.new.tokenize ["prog".toList, "--help".toList, "-ab".toList, "word".toList])
    (Reachable.tokenized _)).2 no_oracle 4

end Clif

